import Mathlib

/-!
A shallow embedding of the superpage reservation manager
(`sys/vm/vm_reserv.c`) and proofs about it.

Modelling conventions:
* Machine integers are `Nat` (with explicit `% 2 ^ 64` where u_long /
  vm_paddr_t / vm_pindex_t overflow matters).  `popmap` is a list of
  `NPOPMAP` word values, each `< 2 ^ 64`, exactly as the C array of
  `u_long`.
* A reservation is identified by its index in the reservation array.
  A page is identified by the pair (reservation index, slot index);
  this is the map `pa >>> VM_LEVEL_0_SHIFT` realised by
  `vm_reserv_from_page`.
* The embedding is sequential (one thread).  Lock acquire/release are
  no-ops, `trylock` outcomes that depend on other threads are oracle
  parameters where the control flow depends on them (`vm_reserv_scan`),
  and a `seq_read` followed by `seq_consistent` always succeeds, so the
  retry loops of the allocator front ends run their bodies once.
* `KASSERT` / `MPASS` failures (kernel panics) and C undefined
  behaviour are modelled by returning `none`; operations that can
  panic return `Option`.
* Calls into the physical allocator (`vm_phys_free_pages`,
  `vm_phys_free_contig`) are recorded in an event log; allocation
  results (`vm_phys_alloc_pages`, `vm_phys_alloc_contig`) are oracle
  parameters.
-/

/-- `VM_LEVEL_0_ORDER` (amd64 configuration). -/
def VM_LEVEL_0_ORDER : Nat := 9

/-- `VM_LEVEL_0_NPAGES = 1 << VM_LEVEL_0_ORDER`. -/
def VM_LEVEL_0_NPAGES : Nat := 1 <<< VM_LEVEL_0_ORDER

/-- `PAGE_SHIFT`. -/
def PAGE_SHIFT : Nat := 12

/-- `VM_LEVEL_0_SHIFT = VM_LEVEL_0_ORDER + PAGE_SHIFT`. -/
def VM_LEVEL_0_SHIFT : Nat := VM_LEVEL_0_ORDER + PAGE_SHIFT

/-- `VM_LEVEL_0_SIZE = 1 << VM_LEVEL_0_SHIFT`. -/
def VM_LEVEL_0_SIZE : Nat := 1 <<< VM_LEVEL_0_SHIFT

/-- `PAGE_SIZE`. -/
def PAGE_SIZE : Nat := 1 <<< PAGE_SHIFT

/-- The modulus of a 64-bit `u_long` / `vm_paddr_t` / `vm_pindex_t`. -/
def UL64 : Nat := 2 ^ 64

/-- `NBPOPMAP = NBBY * sizeof(popmap_t)`: bits in one popmap word. -/
def NBPOPMAP : Nat := 64

/-- `NPOPMAP = howmany(VM_LEVEL_0_NPAGES, NBPOPMAP)`: popmap words. -/
def NPOPMAP : Nat := (VM_LEVEL_0_NPAGES + NBPOPMAP - 1) / NBPOPMAP

/-- `VM_RESERV_F_ACTIVE`. -/
def VM_RESERV_F_ACTIVE : Nat := 0x01

/-- `VM_RESERV_F_INACTIVE`. -/
def VM_RESERV_F_INACTIVE : Nat := 0x02

/-- `VM_RESERV_F_PARTPOP = ACTIVE | INACTIVE`. -/
def VM_RESERV_F_PARTPOP : Nat := VM_RESERV_F_ACTIVE ||| VM_RESERV_F_INACTIVE

/-- `VM_RESERV_F_MARKER`. -/
def VM_RESERV_F_MARKER : Nat := 0x04

/-- `RV_INIT`. -/
def RV_INIT : Int := 2

/-- `RV_POP_STEP`. -/
def RV_POP_STEP : Int := 1

/-- `RV_DEPOP_STEP`. -/
def RV_DEPOP_STEP : Int := 1

/-- `RV_DEC`. -/
def RV_DEC : Int := 1

/-- `RV_ACT_MAX`. -/
def RV_ACT_MAX : Int := 64

/-- Bitwise complement of a 64-bit word (`~x` on `u_long`). -/
def cNot64 (x : Nat) : Nat := (UL64 - 1) ^^^ (x % UL64)

/-- Two's-complement subtraction on 64-bit values (`a - b` on u_long /
vm_paddr_t / vm_pindex_t). -/
def cSub64 (a b : Nat) : Nat := (a + (UL64 - b % UL64)) % UL64

/-- Bitwise complement within a `uint8_t` (`flags &= ~FLAG` acts on the
low eight bits). -/
def cNot8 (x : Nat) : Nat := 255 ^^^ (x % 256)

/-- Core of `ffsl`: 1-based index of the least significant set bit of
`x` among the low `n` bits, else 0. -/
def ffsCore : Nat → Nat → Nat
  | _, 0 => 0
  | x, n + 1 =>
    if x % 2 = 1 then 1
    else
      let r := ffsCore (x / 2) n
      if r = 0 then 0 else r + 1

/-- `ffsl(x)`: find-first-set on a 64-bit `u_long`; returns the 1-based
index of the least significant set bit, or 0 if `x` has none. -/
def ffsl (x : Nat) : Nat := ffsCore (x % UL64) 64

/-- `popmap_clear(popmap, i)`:
`popmap[i / NBPOPMAP] &= ~(1UL << (i % NBPOPMAP))`. -/
def popmap_clear (pm : List Nat) (i : Nat) : List Nat :=
  pm.set (i / NBPOPMAP)
    (pm.getD (i / NBPOPMAP) 0 &&& cNot64 (1 <<< (i % NBPOPMAP)))

/-- `popmap_set(popmap, i)`:
`popmap[i / NBPOPMAP] |= 1UL << (i % NBPOPMAP)`. -/
def popmap_set (pm : List Nat) (i : Nat) : List Nat :=
  pm.set (i / NBPOPMAP)
    (pm.getD (i / NBPOPMAP) 0 ||| (1 <<< (i % NBPOPMAP)))

/-- `popmap_is_clear(popmap, i)`. -/
def popmap_is_clear (pm : List Nat) (i : Nat) : Bool :=
  pm.getD (i / NBPOPMAP) 0 &&& (1 <<< (i % NBPOPMAP)) = 0

/-- `popmap_is_set(popmap, i)`. -/
def popmap_is_set (pm : List Nat) (i : Nat) : Bool :=
  ¬ (pm.getD (i / NBPOPMAP) 0 &&& (1 <<< (i % NBPOPMAP)) = 0)

/-- One `struct vm_reserv` record.  `pages` is the physical address of
the first small page of the underlying superpage, or `none` for an
invalid record (`pages == NULL`); `psind` is `rv->pages->psind`, the
size hint stored in the base page. -/
structure RState where
  object : Option Nat
  pindex : Nat
  pages : Option Nat
  psind : Nat
  popcnt : Nat
  actcnt : Int
  flags : Nat
  popmap : List Nat
  seq : Nat
deriving DecidableEq, Repr

/-- A reference to a small page: the reservation it falls in
(`vm_reserv_from_page`, i.e. `VM_PAGE_TO_PHYS(m) >> VM_LEVEL_0_SHIFT`)
and the slot inside it (`m - rv->pages`), together with the page's
`object` and `pindex` fields read by the allocator front ends. -/
structure VPage where
  rv : Nat
  idx : Nat
  object : Option Nat
  pindex : Nat
deriving DecidableEq, Repr

/-- A call into the physical memory allocator. -/
inductive PhysEvent where
  /-- `vm_phys_free_pages(&rv->pages[startIdx], order)`. -/
  | freePages (rv : Nat) (startIdx : Nat) (order : Nat)
  /-- `vm_phys_free_contig(&rv->pages[startIdx], npages)`. -/
  | freeContig (rv : Nat) (startIdx : Nat) (npages : Nat)
deriving DecidableEq, Repr

/-- The global state of the module: the reservation array (`rvs`), the
two LRU queues (entries are `some r` for reservation `r` and `none` for
the embedded scan marker), the per-object reservation lists
(`object->rvq`), the three counters, and the log of physical-allocator
calls. -/
structure GState where
  rvs : Nat → RState
  lruActive : List (Option Nat)
  lruInactive : List (Option Nat)
  objq : Nat → List Nat
  freedCnt : Nat
  brokenCnt : Nat
  reclaimedCnt : Nat
  events : List PhysEvent

/-- Replace reservation `r`'s record. -/
def setRv (s : GState) (r : Nat) (v : RState) : GState :=
  { s with rvs := fun r' => if r' = r then v else s.rvs r' }

/-- Replace object `o`'s reservation list. -/
def setObjq (s : GState) (o : Nat) (l : List Nat) : GState :=
  { s with objq := fun o' => if o' = o then l else s.objq o' }

/-- `vm_reserv_set_object(rv, object, pindex)`: bracketed by
`seq_write_begin` / `seq_write_end` (each bumps `seq` by one); writes
`pindex` only when binding to a non-NULL object. -/
def vm_reserv_set_object (rv : RState) (object : Option Nat) (pindex : Nat) :
    RState :=
  let rv := { rv with seq := rv.seq + 1 }
  let rv :=
    match object with
    | some _ => { rv with pindex := pindex }
    | none => rv
  { rv with object := object, seq := rv.seq + 1 }

/-- `vm_reserv_lru_dequeue(rv)`: asserts the record is on exactly one
LRU queue and is not the marker, removes it from that queue and clears
the ACTIVE/INACTIVE flags.  `none` models a `KASSERT` failure. -/
def vm_reserv_lru_dequeue (s : GState) (r : Nat) : Option GState :=
  let rv := s.rvs r
  if rv.flags &&& VM_RESERV_F_PARTPOP = 0 then none
  else if rv.flags &&& VM_RESERV_F_PARTPOP = VM_RESERV_F_PARTPOP then none
  else if ¬ (rv.flags &&& VM_RESERV_F_MARKER = 0) then none
  else
    let s :=
      if ¬ (rv.flags &&& VM_RESERV_F_INACTIVE = 0) then
        { s with lruInactive := s.lruInactive.erase (some r) }
      else
        { s with lruActive := s.lruActive.erase (some r) }
    some (setRv s r { rv with flags := rv.flags &&& cNot8 VM_RESERV_F_PARTPOP })

/-- `vm_reserv_update_lru(rv, advance)`, the LRU update procedure shared
by populate and depopulate. -/
def vm_reserv_update_lru (s : GState) (r : Nat) (advance : Int) :
    Option GState :=
  let rv := s.rvs r
  if rv.popcnt = VM_LEVEL_0_NPAGES then
    -- KASSERT: on exactly one partpop queue (then dequeue re-checks it).
    if rv.flags &&& VM_RESERV_F_PARTPOP = 0 then none
    else if rv.flags &&& VM_RESERV_F_PARTPOP = VM_RESERV_F_PARTPOP then none
    else vm_reserv_lru_dequeue s r
  else if rv.popcnt = 0 then
    match rv.object with
    | none => none -- LIST_REMOVE of an unlinked record: undefined behaviour
    | some o =>
      let s := setRv s r (vm_reserv_set_object rv none rv.pindex)
      let s := setObjq s o ((s.objq o).erase r)
      match vm_reserv_lru_dequeue s r with
      | none => none
      | some s =>
        some { s with
               events := s.events ++ [PhysEvent.freePages r 0 VM_LEVEL_0_ORDER],
               freedCnt := s.freedCnt + 1 }
  else if rv.flags &&& VM_RESERV_F_ACTIVE = 0 then
    let rv := { rv with actcnt := RV_INIT }
    let s := setRv s r rv
    match
      if ¬ (rv.flags &&& VM_RESERV_F_INACTIVE = 0) then
        vm_reserv_lru_dequeue s r
      else some s with
    | none => none
    | some s =>
      let rv := s.rvs r
      some (setRv { s with lruActive := s.lruActive ++ [some r] } r
        { rv with flags := rv.flags ||| VM_RESERV_F_ACTIVE })
  else
    let a := rv.actcnt + advance
    some (setRv s r { rv with actcnt := if a > RV_ACT_MAX then RV_ACT_MAX else a })

/-- `vm_reserv_depopulate(rv, index)`. -/
def vm_reserv_depopulate (s : GState) (r : Nat) (index : Nat) :
    Option GState :=
  let rv := s.rvs r
  if rv.object = none then none
  else if ¬ popmap_is_set rv.popmap index then none
  else if rv.popcnt = 0 then none
  else
    let rv := { rv with popmap := popmap_clear rv.popmap index }
    -- if (rv->popcnt-- == VM_LEVEL_0_NPAGES) { assert; psind = 0; }
    if rv.popcnt = VM_LEVEL_0_NPAGES then
      if ¬ (rv.psind = 1) then none
      else if ¬ (rv.flags &&& VM_RESERV_F_PARTPOP = 0) then none
      else
        vm_reserv_update_lru
          (setRv s r { rv with psind := 0, popcnt := rv.popcnt - 1 }) r
          RV_DEPOP_STEP
    else
      vm_reserv_update_lru (setRv s r { rv with popcnt := rv.popcnt - 1 }) r
        RV_DEPOP_STEP

/-- `vm_reserv_populate(rv, index)`. -/
def vm_reserv_populate (s : GState) (r : Nat) (index : Nat) :
    Option GState :=
  let rv := s.rvs r
  if rv.object = none then none
  else if ¬ popmap_is_clear rv.popmap index then none
  else if ¬ (rv.popcnt < VM_LEVEL_0_NPAGES) then none
  else if ¬ (rv.psind = 0) then none
  else
    let rv := { rv with popmap := popmap_set rv.popmap index,
                        popcnt := rv.popcnt + 1 }
    let rv := if rv.popcnt = VM_LEVEL_0_NPAGES then { rv with psind := 1 } else rv
    vm_reserv_update_lru (setRv s r rv) r RV_POP_STEP

/-- `vm_reserv_from_page(m)`: `VM_PAGE_TO_PHYS(m) >> VM_LEVEL_0_SHIFT`,
which is the index of the reservation containing `m`. -/
def vm_reserv_from_page (m : VPage) : Nat := m.rv

/-- `vm_reserv_has_pindex(rv, pindex)`:
`((pindex - rv->pindex) & ~(VM_LEVEL_0_NPAGES - 1)) == 0` over
`vm_pindex_t`. -/
def vm_reserv_has_pindex (rv : RState) (pindex : Nat) : Bool :=
  cSub64 pindex rv.pindex &&& cNot64 (VM_LEVEL_0_NPAGES - 1) = 0

/-- The inner `while (++i < NPOPMAP)` loop of `vm_reserv_break`: skip
over (and zero) words that are all ones, returning the updated popmap,
popcount, the new word index, and the `ffsl` result for that word
(0 when the scan ran off the end). -/
def vm_reserv_break_skip : Nat → List Nat → Nat → Nat →
    List Nat × Nat × Nat × Nat
  | 0, pm, pc, i => (pm, pc, i + 1, 0)
  | fuel + 1, pm, pc, i =>
    if i + 1 < NPOPMAP then
      let lo := ffsl (cNot64 (pm.getD (i + 1) 0))
      if lo = 0 then
        vm_reserv_break_skip fuel (pm.set (i + 1) 0) (pc - NBPOPMAP) (i + 1)
      else (pm, pc, i + 1, lo)
    else (pm, pc, i + 1, 0)

/-- The `do hi = ffsl(rv->popmap[i]); while (hi == 0 && ++i < NPOPMAP);`
search of `vm_reserv_break` for the next set bit, with the trailing
`if (i != NPOPMAP) hi--;` folded in: returns the word index and the
0-based bit index (`(NPOPMAP, 0)` when no set bit remains). -/
def vm_reserv_break_findone : Nat → List Nat → Nat → Nat × Nat
  | 0, _, i => (i, 0)
  | fuel + 1, pm, i =>
    let h := ffsl (pm.getD i 0)
    if h = 0 then
      if i + 1 < NPOPMAP then vm_reserv_break_findone fuel pm (i + 1)
      else (i + 1, 0)
    else (i, h - 1)

/-- The body of `vm_reserv_break`'s outer loop after a zero bit was
found (`lo1` is the non-zero 1-based `ffsl` result): clear the set bits
below it, locate the end of the zero run, and emit the
`vm_phys_free_contig` call `(begin_zeroes, length)`.  Returns the new
popmap, popcount, word index, bit index and the emitted run. -/
def vm_reserv_break_run (pm : List Nat) (pc i hi lo1 : Nat) :
    List Nat × Nat × Nat × Nat × (Nat × Nat) :=
  let lo := lo1 - 1
  let pm' := if 0 < lo then
      pm.set i (pm.getD i 0 &&& cNot64 ((1 <<< lo) - 1)) else pm
  let pc' := if 0 < lo then pc - (lo - hi) else pc
  let bz := NBPOPMAP * i + lo
  let ih := vm_reserv_break_findone NPOPMAP pm' i
  (pm', pc', ih.1, ih.2, (bz, NBPOPMAP * ih.1 + ih.2 - bz))

/-- The outer `do { ... } while (i < NPOPMAP)` loop of
`vm_reserv_break`.  `fuel` only bounds the recursion; every iteration
advances the scan position `NBPOPMAP * i + hi` by at least one, so
`VM_LEVEL_0_NPAGES + 1` is always enough.  Returns the final popmap and
popcount and the list of `vm_phys_free_contig` runs in call order. -/
def vm_reserv_break_loop (fuel : Nat) (pm : List Nat) (pc i hi : Nat)
    (freed : List (Nat × Nat)) : List Nat × Nat × List (Nat × Nat) :=
  match fuel with
  | 0 => (pm, pc, freed)
  | fuel + 1 =>
    let lo := ffsl (cNot64 (((1 <<< hi) - 1) ||| pm.getD i 0))
    if lo = 0 then
      match vm_reserv_break_skip NPOPMAP (pm.set i 0) (pc - (NBPOPMAP - hi)) i
        with
      | (pm, pc, i, lo) =>
        if i = NPOPMAP then (pm, pc, freed)
        else
          match vm_reserv_break_run pm pc i 0 lo with
          | (pm, pc, i, hi, run) =>
            if i < NPOPMAP then
              vm_reserv_break_loop fuel pm pc i hi (freed ++ [run])
            else (pm, pc, freed ++ [run])
    else
      match vm_reserv_break_run pm pc i hi lo with
      | (pm, pc, i, hi, run) =>
        if i < NPOPMAP then
          vm_reserv_break_loop fuel pm pc i hi (freed ++ [run])
        else (pm, pc, freed ++ [run])

/-- The tail of `vm_reserv_break` after the popmap was fixed up: run
the zero-run walk over `rv`'s popmap, check the final
`KASSERT(rv->popcnt == 0)`, log the `vm_phys_free_contig` calls and
bump the broken counter. -/
def vm_reserv_break_finish (s : GState) (r : Nat) (rv : RState) :
    Option GState :=
  match vm_reserv_break_loop (VM_LEVEL_0_NPAGES + 1) rv.popmap rv.popcnt 0 0 []
    with
  | (pm, pc, freed) =>
    if ¬ (pc = 0) then none
    else
      some { setRv s r { rv with popmap := pm, popcnt := pc } with
             events :=
               s.events ++ freed.map (fun z => PhysEvent.freeContig r z.1 z.2),
             brokenCnt := s.brokenCnt + 1 }

/-- `vm_reserv_break(rv, m)`.  `m` is the optional retained page given
as its slot index `m - rv->pages` inside the reservation. -/
def vm_reserv_break (s : GState) (r : Nat) (m : Option Nat) : Option GState :=
  let rv := s.rvs r
  if ¬ (rv.flags &&& VM_RESERV_F_PARTPOP = 0) then none
  else
    match rv.object with
    | none => none   -- KASSERT(rv->object != NULL)
    | some o =>
      let s := setObjq s o ((s.objq o).erase r)   -- LIST_REMOVE(rv, objq)
      let rv := vm_reserv_set_object rv none rv.pindex
      match m with
      | none => vm_reserv_break_finish s r rv
      | some mi =>
        if ¬ popmap_is_clear rv.popmap mi then none
        else
          vm_reserv_break_finish s r
            { rv with popmap := popmap_set rv.popmap mi,
                      popcnt := rv.popcnt + 1 }

/-- The loop of `vm_reserv_break_all`, fuelled by the length of the
object's reservation list (each `vm_reserv_break` removes the head).
The try-lock/coalescing dance of the C code only affects which shard
lock is held; in the sequential embedding a trylock always succeeds
and the loop simply keeps taking `LIST_FIRST(&object->rvq)`. -/
def vm_reserv_break_all_go : GState → Nat → Nat → Option GState
  | s, o, 0 => match s.objq o with | [] => some s | _ :: _ => none
  | s, o, fuel + 1 =>
    match s.objq o with
    | [] => some s
    | r :: _ =>
      if ¬ ((s.rvs r).object = some o) then none   -- KASSERT
      else
        match
          (if ¬ ((s.rvs r).flags &&& VM_RESERV_F_PARTPOP = 0) then
            vm_reserv_lru_dequeue s r
          else some s) with
        | none => none
        | some s1 =>
          match vm_reserv_break s1 r none with
          | none => none
          | some s2 => vm_reserv_break_all_go s2 o fuel

/-- `vm_reserv_break_all(object)`. -/
def vm_reserv_break_all (s : GState) (o : Nat) : Option GState :=
  vm_reserv_break_all_go s o (s.objq o).length

/-- `vm_reserv_reclaim(rv)`: dequeue a partially populated reservation
and break it. -/
def vm_reserv_reclaim (s : GState) (r : Nat) : Option GState :=
  if (s.rvs r).flags &&& VM_RESERV_F_PARTPOP = 0 then none   -- KASSERT
  else
    match vm_reserv_lru_dequeue s r with
    | none => none
    | some s =>
      match vm_reserv_break s r none with
      | none => none
      | some s => some { s with reclaimedCnt := s.reclaimedCnt + 1 }

/-- `vm_reserv_rename(m, new_object, old_object, old_object_offset)`.
In the sequential embedding the re-check of `rv->object` under the
reservation lock sees the same value as the unlocked check. -/
def vm_reserv_rename (s : GState) (m : VPage) (new_object : Nat)
    (old_object : Option Nat) (old_object_offset : Nat) : Option GState :=
  let r := vm_reserv_from_page m
  let rv := s.rvs r
  if rv.object = old_object then
    match rv.object with
    | none => none   -- LIST_REMOVE of an unlinked free record: undefined
    | some o =>
      let s := setObjq s o ((s.objq o).erase r)
      let s := setObjq s new_object (r :: s.objq new_object)
      some (setRv s r
        (vm_reserv_set_object rv (some new_object)
          (cSub64 rv.pindex old_object_offset)))
  else some s

/-- The queue entries strictly after the scan marker
(`TAILQ_NEXT(marker, partpopq)` onwards). -/
def tailAfterMarker : List (Option Nat) → List (Option Nat)
  | [] => []
  | none :: xs => xs
  | some _ :: xs => tailAfterMarker xs

/-- `TAILQ_INSERT_BEFORE(e, marker)`: re-insert the marker before the
entry `e`. -/
def insertBeforeMarker : List (Option Nat) → Option Nat → List (Option Nat)
  | [], _ => [none]
  | x :: xs, e => if x = e then none :: x :: xs else x :: insertBeforeMarker xs e

/-- The `TAILQ_FOREACH_FROM_SAFE` sweep of `vm_reserv_scan`: `tl` is
the try-lock oracle.  Returns the state and the entry the sweep
stopped at (`none` when the queue was exhausted). -/
def vm_reserv_scan_loop (tl : Nat → Bool) :
    GState → List (Option Nat) → Nat → Option (GState × Option (Option Nat))
  | s, [], _ => some (s, none)
  | s, e :: rest, target =>
    if target = 0 then some (s, some e)
    else
      match e with
      | none => vm_reserv_scan_loop tl s rest target
      | some r =>
        if ¬ tl r then vm_reserv_scan_loop tl s rest target
        else
          let rv := s.rvs r
          if rv.actcnt - RV_DEC ≤ 0 then
            match vm_reserv_lru_dequeue s r with
            | none => none
            | some s =>
              let s := { s with lruInactive := s.lruInactive ++ [some r] }
              let rv := s.rvs r
              let s := setRv s r
                { rv with flags := rv.flags ||| VM_RESERV_F_INACTIVE,
                          actcnt := 0 }
              vm_reserv_scan_loop tl s rest (target - 1)
          else
            vm_reserv_scan_loop tl
              (setRv s r { rv with actcnt := rv.actcnt - RV_DEC }) rest target

/-- `vm_reserv_scan(vmd, target)` with a try-lock oracle `tl`.  The
sweep resumes at the marker's successor (or the queue head when the
marker has no successor).  Afterwards the marker is removed and
re-inserted before the entry the sweep stopped at, or at the head.
If the sweep stopped at the marker itself, the C code executes
`TAILQ_INSERT_BEFORE(rv, marker)` with `rv == marker` immediately
after `TAILQ_REMOVE(..., marker, ...)`, corrupting the queue; this
undefined behaviour is modelled as `none`. -/
def vm_reserv_scan (s : GState) (target : Nat) (tl : Nat → Bool) :
    Option GState :=
  let after := tailAfterMarker s.lruActive
  let startList := if after = [] then s.lruActive else after
  match vm_reserv_scan_loop tl s startList target with
  | none => none
  | some (s, stop) =>
    let q := s.lruActive.erase none   -- TAILQ_REMOVE(active, marker)
    match stop with
    | none => some { s with lruActive := none :: q }
    | some e =>
      if e = none then none
      else some { s with lruActive := insertBeforeMarker q e }

/-- The fields of a `vm_object` read by this module. -/
structure VObj where
  size : Nat
  pg_color : Nat
  isVnode : Bool
  backingIsVnode : Bool
deriving DecidableEq, Repr

/-- `VM_RESERV_INDEX(object, pindex)`:
`((object)->pg_color + (pindex)) & (VM_LEVEL_0_NPAGES - 1)`. -/
def VM_RESERV_INDEX (obj : VObj) (pindex : Nat) : Nat :=
  (obj.pg_color + pindex) &&& (VM_LEVEL_0_NPAGES - 1)

/-- `roundup2(x, y)` for a power-of-two `y` on `u_long` values. -/
def roundup2 (x y : Nat) : Nat := (x + (y - 1)) &&& cNot64 (y - 1)

/-- The `found:` tail of `vm_reserv_alloc_page`: the reservation `r`
covering `pindex` was found and re-validated.  Returns the page as a
(reservation, slot) pair, or `none` in the second component for the
`lost:` exit. -/
def vm_reserv_alloc_page_found (s : GState) (obj : VObj) (pindex : Nat)
    (r : Nat) : Option (GState × Option (Nat × Nat)) :=
  let index := VM_RESERV_INDEX obj pindex
  -- Handle vm_page_rename(m, new_object, ...).
  if popmap_is_set (s.rvs r).popmap index then some (s, none)
  else
    match vm_reserv_populate s r index with
    | none => none
    | some s => some (s, some (r, index))

/-- The miss tail of `vm_reserv_alloc_page`: no existing reservation;
check the vnode tail policy, ask the physical allocator (`physAlloc`
oracle: the reservation whose naturally aligned run it returned, or
`none` on exhaustion) and bind/populate the new reservation. -/
def vm_reserv_alloc_page_new (s : GState) (oid : Nat) (obj : VObj)
    (pindex first : Nat) (physAlloc : Option Nat) :
    Option (GState × Option (Nat × Nat)) :=
  if first + VM_LEVEL_0_NPAGES > obj.size ∧ (obj.isVnode ∨ obj.backingIsVnode)
  then some (s, none)
  else
    match physAlloc with
    | none => some (s, none)
    | some r =>
      let rv := s.rvs r
      -- KASSERT(rv->pages == m): the oracle hands back the reservation
      -- whose base page vm_phys_alloc_pages returned; an invalid record
      -- cannot satisfy that.
      if rv.pages = none then none
      else if ¬ (rv.object = none) then none
      else
        let s := setObjq s oid (r :: s.objq oid)   -- LIST_INSERT_HEAD
        let s := setRv s r (vm_reserv_set_object (s.rvs r) (some oid) first)
        let rv := s.rvs r
        if ¬ (rv.popcnt = 0) then none
        else if ¬ (rv.flags &&& VM_RESERV_F_PARTPOP = 0) then none
        else if ¬ (rv.popmap.all (fun w => w == 0) = true) then none
        else
          let index := VM_RESERV_INDEX obj pindex
          match vm_reserv_populate s r index with
          | none => none
          | some s => some (s, some (r, index))

/-- The successor-probe of `vm_reserv_alloc_page` (after the
predecessor probe fell through). -/
def vm_reserv_alloc_page_succ (s : GState) (oid : Nat) (obj : VObj)
    (pindex first : Nat) (msucc : Option VPage) (physAlloc : Option Nat) :
    Option (GState × Option (Nat × Nat)) :=
  match msucc with
  | some ms =>
    if ¬ (pindex < ms.pindex) then none   -- KASSERT
    else
      let rv := s.rvs (vm_reserv_from_page ms)
      if rv.object = some oid ∧ vm_reserv_has_pindex rv pindex then
        vm_reserv_alloc_page_found s obj pindex (vm_reserv_from_page ms)
      else
        let rightcap :=
          if rv.object = some oid then rv.pindex else ms.pindex
        if rightcap < first + VM_LEVEL_0_NPAGES then some (s, none)
        else vm_reserv_alloc_page_new s oid obj pindex first physAlloc
  | none => vm_reserv_alloc_page_new s oid obj pindex first physAlloc

/-- `vm_reserv_alloc_page(object, pindex, mpred)`.  `oid` is the
object's identity, `obj` its fields; `msucc` stands for
`TAILQ_NEXT(mpred, listq)` / `TAILQ_FIRST(&object->memq)`, supplied by
the environment. -/
def vm_reserv_alloc_page (s : GState) (oid : Nat) (obj : VObj) (pindex : Nat)
    (mpred msucc : Option VPage) (physAlloc : Option Nat) :
    Option (GState × Option (Nat × Nat)) :=
  -- Is a reservation fundamentally impossible?
  if pindex < VM_RESERV_INDEX obj pindex ∨ obj.size ≤ pindex then
    some (s, none)
  else
    let first := pindex - VM_RESERV_INDEX obj pindex
    match mpred with
    | some mp =>
      if ¬ (mp.object = some oid) then none       -- KASSERT
      else if ¬ (mp.pindex < pindex) then none    -- KASSERT
      else
        let rv := s.rvs (vm_reserv_from_page mp)
        if rv.object = some oid ∧ vm_reserv_has_pindex rv pindex then
          vm_reserv_alloc_page_found s obj pindex (vm_reserv_from_page mp)
        else
          let leftcap :=
            if rv.object = some oid then rv.pindex + VM_LEVEL_0_NPAGES
            else mp.pindex + 1
          if first < leftcap then some (s, none)
          else vm_reserv_alloc_page_succ s oid obj pindex first msucc physAlloc
    | none => vm_reserv_alloc_page_succ s oid obj pindex first msucc physAlloc

/-- The `found:` tail of `vm_reserv_alloc_contig`: an existing
reservation `r` of the object covering `pindex` was found and
re-validated under its lock. -/
def vm_reserv_alloc_contig_found (s : GState) (obj : VObj)
    (pindex npages low high alignment boundary : Nat) (r : Nat) :
    Option (GState × Option (Nat × Nat)) :=
  let index := VM_RESERV_INDEX obj pindex
  -- Does the allocation fit within the reservation?
  if index + npages > VM_LEVEL_0_NPAGES then some (s, none)
  else
    let rv := s.rvs r
    match rv.pages with
    | none => none   -- &rv->pages[index] on an invalid record
    | some pb =>
      let pa := pb + index * PAGE_SIZE   -- VM_PAGE_TO_PHYS(&rv->pages[index])
      let size := npages <<< PAGE_SHIFT
      if pa < low ∨ high < pa + size ∨
          ¬ (pa &&& cSub64 alignment 1 = 0) ∨
          ¬ ((pa ^^^ (pa + size - 1)) &&& cNot64 (cSub64 boundary 1) = 0) then
        some (s, none)
      -- Handle vm_page_rename(m, new_object, ...).
      else if (List.range npages).any
          (fun k => popmap_is_set rv.popmap (index + k)) then
        some (s, none)
      else
        match (List.range npages).foldlM
            (fun st k => vm_reserv_populate st r (index + k)) s with
        | none => none
        | some s => some (s, some (r, index))

/-- The carving loop of `vm_reserv_alloc_contig`: bind and populate
each reservation completely covered by the allocated run.  The run
starts at reservation `r` (reservation boundaries are consecutive
array indices); `fuel` bounds the recursion and `allocpages` is enough.
-/
def vm_reserv_alloc_contig_carve : Nat → GState → Nat → Nat → Nat → Nat →
    Nat → Nat → Option (Nat × Nat) → Option (GState × Option (Nat × Nat))
  | 0, _, _, _, _, _, _, _, _ => none
  | fuel + 1, s, oid, npages, index, r, first, allocpages, m_ret =>
    let rv := s.rvs r
    if rv.pages = none then none   -- KASSERT(rv->pages == m)
    else if ¬ (rv.object = none) then none
    else
      let s := setObjq s oid (r :: s.objq oid)   -- LIST_INSERT_HEAD
      let s := setRv s r (vm_reserv_set_object (s.rvs r) (some oid) first)
      let rv := s.rvs r
      if ¬ (rv.popcnt = 0) then none
      else if ¬ (rv.flags &&& VM_RESERV_F_PARTPOP = 0) then none
      else if ¬ (rv.popmap.all (fun w => w == 0) = true) then none
      else
        let n := min (VM_LEVEL_0_NPAGES - index) npages
        match (List.range n).foldlM
            (fun st k => vm_reserv_populate st r (index + k)) s with
        | none => none
        | some s =>
          let npages := npages - n
          let next : Option (Nat × Nat) × Nat :=
            match m_ret with
            | none => (some (r, index), 0)
            | some v => (some v, index)
          let allocpages := allocpages - VM_LEVEL_0_NPAGES
          if VM_LEVEL_0_NPAGES ≤ allocpages then
            vm_reserv_alloc_contig_carve fuel s oid npages next.2 (r + 1)
              (first + VM_LEVEL_0_NPAGES) allocpages next.1
          else some (s, next.1)

/-- The miss tail of `vm_reserv_alloc_contig`: vnode tail policy, then
ask the physical allocator for `allocpages` pages (`physContig` oracle:
first reservation of the returned run) and carve the run into
reservations. -/
def vm_reserv_alloc_contig_new (s : GState) (oid : Nat) (obj : VObj)
    (pindex npages first minpages maxpages allocpages : Nat)
    (physContig : Option Nat) : Option (GState × Option (Nat × Nat)) :=
  if first + maxpages > obj.size ∧ (obj.isVnode ∨ obj.backingIsVnode) ∧
      maxpages = VM_LEVEL_0_NPAGES then
    some (s, none)
  else
    let allocpages :=
      if first + maxpages > obj.size ∧ (obj.isVnode ∨ obj.backingIsVnode) then
        minpages
      else allocpages
    match physContig with
    | none => some (s, none)
    | some r0 =>
      vm_reserv_alloc_contig_carve allocpages s oid npages
        (VM_RESERV_INDEX obj pindex) r0 first allocpages none

/-- The successor-probe of `vm_reserv_alloc_contig`. -/
def vm_reserv_alloc_contig_succ (s : GState) (oid : Nat) (obj : VObj)
    (pindex npages low high alignment boundary first : Nat)
    (msucc : Option VPage) (physContig : Option Nat) :
    Option (GState × Option (Nat × Nat)) :=
  let minpages := VM_RESERV_INDEX obj pindex + npages
  let maxpages := roundup2 minpages VM_LEVEL_0_NPAGES
  match msucc with
  | some ms =>
    if ¬ (pindex < ms.pindex) then none   -- KASSERT
    else
      let rv := s.rvs (vm_reserv_from_page ms)
      if rv.object = some oid ∧ vm_reserv_has_pindex rv pindex then
        vm_reserv_alloc_contig_found s obj pindex npages low high alignment
          boundary (vm_reserv_from_page ms)
      else
        let rightcap :=
          if rv.object = some oid then rv.pindex else ms.pindex
        if rightcap < first + maxpages then
          if maxpages = VM_LEVEL_0_NPAGES then some (s, none)
          else
            vm_reserv_alloc_contig_new s oid obj pindex npages first minpages
              maxpages minpages physContig
        else
          vm_reserv_alloc_contig_new s oid obj pindex npages first minpages
            maxpages maxpages physContig
  | none =>
    vm_reserv_alloc_contig_new s oid obj pindex npages first minpages
      maxpages maxpages physContig

/-- `vm_reserv_alloc_contig(object, pindex, npages, low, high,
alignment, boundary, mpred)`. -/
def vm_reserv_alloc_contig (s : GState) (oid : Nat) (obj : VObj)
    (pindex npages low high alignment boundary : Nat)
    (mpred msucc : Option VPage) (physContig : Option Nat) :
    Option (GState × Option (Nat × Nat)) :=
  if npages = 0 then none   -- KASSERT
  -- Is a reservation fundamentally impossible?
  else if pindex < VM_RESERV_INDEX obj pindex ∨ obj.size < pindex + npages then
    some (s, none)
  else
    -- Could the specified index within a reservation of the smallest
    -- possible size satisfy the alignment and boundary requirements?
    let pa := VM_RESERV_INDEX obj pindex <<< PAGE_SHIFT
    if ¬ (pa &&& cSub64 alignment 1 = 0) then some (s, none)
    else
      let size := npages <<< PAGE_SHIFT
      if ¬ ((pa ^^^ (pa + size - 1)) &&& cNot64 (cSub64 boundary 1) = 0) then
        some (s, none)
      else
        let first := pindex - VM_RESERV_INDEX obj pindex
        match mpred with
        | some mp =>
          if ¬ (mp.object = some oid) then none      -- KASSERT
          else if ¬ (mp.pindex < pindex) then none   -- KASSERT
          else
            let rv := s.rvs (vm_reserv_from_page mp)
            if rv.object = some oid ∧ vm_reserv_has_pindex rv pindex then
              vm_reserv_alloc_contig_found s obj pindex npages low high
                alignment boundary (vm_reserv_from_page mp)
            else
              let leftcap :=
                if rv.object = some oid then rv.pindex + VM_LEVEL_0_NPAGES
                else mp.pindex + 1
              if first < leftcap then some (s, none)
              else
                vm_reserv_alloc_contig_succ s oid obj pindex npages low high
                  alignment boundary first msucc physContig
        | none =>
          vm_reserv_alloc_contig_succ s oid obj pindex npages low high
            alignment boundary first msucc physContig

/-- Bit `j` of a popmap viewed as a single `VM_LEVEL_0_NPAGES`-bit
string (LSB-first inside each word). -/
def bitAt (pm : List Nat) (j : Nat) : Bool :=
  Nat.testBit (pm.getD (j / NBPOPMAP) 0) (j % NBPOPMAP)

/-- Fuelled search for the first position `≥ p` (and
`< VM_LEVEL_0_NPAGES`) whose popmap bit is clear; any
`fuel ≥ VM_LEVEL_0_NPAGES - p` gives the true answer
(`VM_LEVEL_0_NPAGES` when there is none). -/
def findClearAux : Nat → List Nat → Nat → Nat
  | 0, _, _ => VM_LEVEL_0_NPAGES
  | fuel + 1, pm, p =>
    if p < VM_LEVEL_0_NPAGES then
      if bitAt pm p then findClearAux fuel pm (p + 1) else p
    else VM_LEVEL_0_NPAGES

/-- The first position `≥ p` (and `< VM_LEVEL_0_NPAGES`) whose popmap
bit is clear, or `VM_LEVEL_0_NPAGES` if none. -/
def findClear (pm : List Nat) (p : Nat) : Nat :=
  findClearAux (VM_LEVEL_0_NPAGES + 1) pm p

/-- Fuelled search for the first position `≥ p` (and
`< VM_LEVEL_0_NPAGES`) whose popmap bit is set. -/
def findSetAux : Nat → List Nat → Nat → Nat
  | 0, _, _ => VM_LEVEL_0_NPAGES
  | fuel + 1, pm, p =>
    if p < VM_LEVEL_0_NPAGES then
      if bitAt pm p then p else findSetAux fuel pm (p + 1)
    else VM_LEVEL_0_NPAGES

/-- The first position `≥ p` (and `< VM_LEVEL_0_NPAGES`) whose popmap
bit is set, or `VM_LEVEL_0_NPAGES` if none. -/
def findSet (pm : List Nat) (p : Nat) : Nat :=
  findSetAux (VM_LEVEL_0_NPAGES + 1) pm p

/-- Modelled from the spec of `vm_reserv_break` ("Walk `popmap`: find
maximal runs of zeros, and for each run `[lo, hi)` (contiguous across
word boundaries) call `free_contig(&pages[lo], hi-lo)`"): the maximal
runs of clear bits at positions `≥ p`, each as `(start, length)`, in
increasing order.  `fuel ≥ VM_LEVEL_0_NPAGES + 1 - p` always
suffices. -/
def zeroRunsAux : Nat → List Nat → Nat → List (Nat × Nat)
  | 0, _, _ => []
  | fuel + 1, pm, p =>
    let lo := findClear pm p
    if lo < VM_LEVEL_0_NPAGES then
      (lo, findSet pm lo - lo) :: zeroRunsAux fuel pm (findSet pm lo)
    else []

/-- The maximal clear runs of a whole popmap. -/
def zeroRuns (pm : List Nat) : List (Nat × Nat) :=
  zeroRunsAux (VM_LEVEL_0_NPAGES + 1) pm 0

/-- The maximal clear runs at positions `≥ p`. -/
def zeroRunsFrom (pm : List Nat) (p : Nat) : List (Nat × Nat) :=
  zeroRunsAux (VM_LEVEL_0_NPAGES + 1) pm p

/-- Fuelled count of the set bits at positions in
`[p, VM_LEVEL_0_NPAGES)`. -/
def countSetAux : Nat → List Nat → Nat → Nat
  | 0, _, _ => 0
  | fuel + 1, pm, p =>
    if p < VM_LEVEL_0_NPAGES then
      (if bitAt pm p then 1 else 0) + countSetAux fuel pm (p + 1)
    else 0

/-- The number of set bits at positions in `[p, VM_LEVEL_0_NPAGES)`. -/
def countSet (pm : List Nat) (p : Nat) : Nat :=
  countSetAux (VM_LEVEL_0_NPAGES + 1) pm p

/-- The popmap fixed up by `vm_reserv_break` before its zero-run walk:
the retained page's bit, if any, is set first. -/
def breakAdjusted (pm : List Nat) (mi : Option Nat) : List Nat :=
  match mi with
  | none => pm
  | some j => popmap_set pm j

/-- Well-formedness of a popmap: `NPOPMAP` words of 64 bits. -/
def PmWF (pm : List Nat) : Prop :=
  pm.length = NPOPMAP ∧ ∀ w ∈ pm, w < UL64

/-- The structural invariants of a quiescent reservation record that
the module's own assertions rely on: the flags agree with the
population count (global invariants 2 and 3 of the specification), the
record is not the marker, and the size hint is set exactly on full
population. -/
def RvWF (rv : RState) : Prop :=
  ((rv.popcnt = 0 ∨ rv.popcnt = VM_LEVEL_0_NPAGES) → rv.flags = 0) ∧
  (0 < rv.popcnt → rv.popcnt < VM_LEVEL_0_NPAGES →
    rv.flags = VM_RESERV_F_ACTIVE ∨ rv.flags = VM_RESERV_F_INACTIVE) ∧
  rv.psind = (if rv.popcnt = VM_LEVEL_0_NPAGES then 1 else 0)

/-- An invalid (never used) reservation record. -/
def rvFree : RState :=
  { object := none, pindex := 0, pages := none, psind := 0, popcnt := 0,
    actcnt := 0, flags := 0, popmap := List.replicate NPOPMAP 0, seq := 0 }

/-- A partially populated reservation: page 0 in use, on the active
queue. -/
def rvA : RState :=
  { object := some 7, pindex := 0, pages := some (2 * 1024 * 1024),
    psind := 0, popcnt := 1, actcnt := 2, flags := VM_RESERV_F_ACTIVE,
    popmap := [1, 0, 0, 0, 0, 0, 0, 0], seq := 2 }

/-- A state with the single partially populated reservation `rvA` as
reservation 0, owned by object 7, on the active queue behind the
marker. -/
def gA : GState :=
  { rvs := fun r => if r = 0 then rvA else rvFree,
    lruActive := [none, some 0], lruInactive := [],
    objq := fun o => if o = 7 then [0] else [],
    freedCnt := 0, brokenCnt := 0, reclaimedCnt := 0, events := [] }

/-- A fully populated reservation: all 512 pages in use, promoted
(`psind = 1`), on no LRU queue. -/
def rvFull : RState :=
  { object := some 7, pindex := 0, pages := some (2 * 1024 * 1024),
    psind := 1, popcnt := VM_LEVEL_0_NPAGES, actcnt := 2, flags := 0,
    popmap := List.replicate NPOPMAP (UL64 - 1), seq := 2 }

/-- A state with the single fully populated reservation `rvFull` as
reservation 0 owned by object 7 (scenario S2 of the specification:
the state after `alloc_page` for slots 0..511). -/
def gFull : GState :=
  { rvs := fun r => if r = 0 then rvFull else rvFree,
    lruActive := [none], lruInactive := [],
    objq := fun o => if o = 7 then [0] else [],
    freedCnt := 0, brokenCnt := 0, reclaimedCnt := 0, events := [] }

/-- A state whose active queue is `[reservation 0, marker]` with
`actcnt = 1`: the input on which `vm_reserv_scan` with `target = 1`
stops exactly at the marker. -/
def gS : GState :=
  { rvs := fun r => if r = 0 then { rvA with actcnt := 1 } else rvFree,
    lruActive := [some 0, none], lruInactive := [],
    objq := fun o => if o = 7 then [0] else [],
    freedCnt := 0, brokenCnt := 0, reclaimedCnt := 0, events := [] }

/-- A partially populated reservation with two separate clear runs
(bits 1 and 2 in use), off the LRU queues, used to exercise
`vm_reserv_break`. -/
def rvB : RState :=
  { object := some 7, pindex := 0, pages := some (2 * 1024 * 1024),
    psind := 0, popcnt := 2, actcnt := 2, flags := 0,
    popmap := [6, 0, 0, 0, 0, 0, 0, 0], seq := 2 }

/-- A state with `rvB` as reservation 0, dequeued, ready to break. -/
def gB : GState :=
  { rvs := fun r => if r = 0 then rvB else rvFree,
    lruActive := [none], lruInactive := [],
    objq := fun o => if o = 7 then [0] else [],
    freedCnt := 0, brokenCnt := 0, reclaimedCnt := 0, events := [] }

/-- The result of populating slot 1 of `gA`'s reservation 0. -/
def gA_pop : GState := (vm_reserv_populate gA 0 1).getD gA

theorem setRv_rvs_self (s : GState) (r : Nat) (v : RState) :
    (setRv s r v).rvs r = v := by
  simp [setRv]

theorem setRv_rvs_other (s : GState) (r : Nat) (v : RState) (r' : Nat)
    (h : r' ≠ r) : (setRv s r v).rvs r' = s.rvs r' := by
  simp [setRv, h]

theorem GState_ext (a b : GState) (h1 : a.rvs = b.rvs)
    (h2 : a.lruActive = b.lruActive) (h3 : a.lruInactive = b.lruInactive)
    (h4 : a.objq = b.objq) (h5 : a.freedCnt = b.freedCnt)
    (h6 : a.brokenCnt = b.brokenCnt) (h7 : a.reclaimedCnt = b.reclaimedCnt)
    (h8 : a.events = b.events) : a = b := by
  cases a; cases b; simp_all

set_option maxRecDepth 100000 in
/-- C3: the claimed invariant `popcnt = N ⇔ (psind = 1 ∧ on no LRU
queue)` is not preserved: breaking a fully populated reservation
(`vm_reserv_break_all` on its object, reachable after `alloc_page` has
populated all 512 slots) resets `popcnt` to 0 and takes the record off
every list but never clears the base page's `psind`, leaving a state
with `psind = 1`, off-queue, and `popcnt = 0 ≠ N`. -/
theorem C3_break_all_full_violates_invariant :
    (gFull.rvs 0).popcnt = VM_LEVEL_0_NPAGES ∧
    (gFull.rvs 0).psind = 1 ∧
    (gFull.rvs 0).flags &&& VM_RESERV_F_PARTPOP = 0 ∧
    (vm_reserv_break_all gFull 7).map
        (fun s => ((s.rvs 0).popcnt, (s.rvs 0).psind,
          (s.rvs 0).flags &&& VM_RESERV_F_PARTPOP)) =
      some (0, 1, 0) :=
  ⟨rfl, rfl, rfl, rfl⟩

/-- C8: when the sweep's `target` reaches 0 exactly at the marker (the
wrapped-around iteration of `gS` with `target = 1`), the code removes
the marker and then inserts it before itself, corrupting the active
queue (modelled as `none`); with `target = 2` the same state is swept
normally: the reservation moves to the inactive tail with flag
INACTIVE and `actcnt = 0`, and the marker is re-inserted at the
head. -/
theorem C8_scan_marker_self_insert :
    vm_reserv_scan gS 1 (fun _ => true) = none ∧
    (vm_reserv_scan gS 2 (fun _ => true)).map
        (fun s => (s.lruActive, s.lruInactive,
          (s.rvs 0).flags, (s.rvs 0).actcnt)) =
      some ([none], [some 0], VM_RESERV_F_INACTIVE, 0) :=
  ⟨rfl, rfl⟩

/-- C5 (counterexample): on the active partial reservation of `gA`
(`actcnt = 2`), `populate(R, 1)` immediately followed by
`depopulate(R, 1)` yields `actcnt = 4`: both calls take the
already-ACTIVE branch of the LRU update procedure and each adds its
step to `actcnt`, so the count moves by 2, not by at most 1. -/
theorem C5_counterexample :
    ((vm_reserv_populate gA 0 1).bind
        (fun s => vm_reserv_depopulate s 0 1)).map
        (fun s => (s.rvs 0).actcnt) = some 4 ∧
    (gA.rvs 0).actcnt = 2 ∧
    ¬ (((4 : Int) - 2 ≤ 1) ∧ ((2 : Int) - 4 ≤ 1)) :=
  ⟨rfl, rfl, by decide⟩

/-- C7: when `pindex < VM_RESERV_INDEX(object, pindex)` (the claim's
`pindex mod N`, which the cited macro computes as
`(pg_color + pindex) mod N`, so that `first = pindex − index` would
underflow), both allocator front ends fail immediately, returning NULL
with the state unchanged. -/
theorem C7_reserv_index_underflow (s : GState) (oid : Nat) (obj : VObj)
    (pindex npages low high alignment boundary : Nat)
    (mpred msucc : Option VPage) (physAlloc physContig : Option Nat)
    (h : pindex < VM_RESERV_INDEX obj pindex) :
    vm_reserv_alloc_page s oid obj pindex mpred msucc physAlloc =
      some (s, none) ∧
    (npages ≠ 0 →
      vm_reserv_alloc_contig s oid obj pindex npages low high alignment
        boundary mpred msucc physContig = some (s, none)) := by
  constructor
  · unfold vm_reserv_alloc_page
    rw [if_pos (Or.inl h)]
  · intro hn
    unfold vm_reserv_alloc_contig
    rw [if_neg hn, if_pos (Or.inl h)]

/-- C7 witness: `pg_color = 5`, `pindex = 3` gives
`VM_RESERV_INDEX = 8 > 3`; both front ends return NULL on `gA`
unchanged. -/
theorem C7_witness :
    vm_reserv_alloc_page gA 7 ⟨1024, 5, false, false⟩ 3 none none none =
      some (gA, none) ∧
    ((1 : Nat) ≠ 0 →
      vm_reserv_alloc_contig gA 7 ⟨1024, 5, false, false⟩ 3 1 0 (2 ^ 40) 1 0
        none none none = some (gA, none)) :=
  C7_reserv_index_underflow gA 7 ⟨1024, 5, false, false⟩ 3 1 0 (2 ^ 40) 1 0
    none none none none (by decide)

theorem VM_RESERV_INDEX_eq_mod (obj : VObj) (pindex : Nat) :
    VM_RESERV_INDEX obj pindex = (obj.pg_color + pindex) % 512 := by
  have h := Nat.and_pow_two_sub_one_eq_mod (obj.pg_color + pindex) 9
  norm_num at h
  simpa [VM_RESERV_INDEX, VM_LEVEL_0_NPAGES, VM_LEVEL_0_ORDER] using h

theorem VM_RESERV_INDEX_lt (obj : VObj) (pindex : Nat) :
    VM_RESERV_INDEX obj pindex < VM_LEVEL_0_NPAGES := by
  rw [VM_RESERV_INDEX_eq_mod]
  exact Nat.mod_lt _ (by decide)

/-- C6: on the `found:` branch of `vm_reserv_alloc_contig`, a request
for more than `N − 1` pages fails: either it does not fit behind
`index` at all, or (`index = 0`, `npages = N`) the popmap scan finds a
populated slot, since a found reservation (bound to an object) has at
least one bit set.  In every case the branch returns NULL with the
state unchanged. -/
theorem C6_alloc_contig_found_npages_exceeding (s : GState) (obj : VObj)
    (pindex npages low high alignment boundary r : Nat)
    (hn : VM_LEVEL_0_NPAGES - 1 < npages)
    (hpg : (s.rvs r).pages ≠ none)
    (j : Nat) (hj : j < VM_LEVEL_0_NPAGES)
    (hset : popmap_is_set (s.rvs r).popmap j = true) :
    vm_reserv_alloc_contig_found s obj pindex npages low high alignment
      boundary r = some (s, none) := by
  unfold vm_reserv_alloc_contig_found
  by_cases hov : VM_RESERV_INDEX obj pindex + npages > VM_LEVEL_0_NPAGES
  · rw [if_pos hov]
  · rw [if_neg hov]
    have hlt := VM_RESERV_INDEX_lt obj pindex
    have hidx : VM_RESERV_INDEX obj pindex = 0 := by omega
    have hnp : npages = VM_LEVEL_0_NPAGES := by
      simp only [VM_LEVEL_0_NPAGES, VM_LEVEL_0_ORDER] at hn hov ⊢
      omega
    cases hp : (s.rvs r).pages with
    | none => exact absurd hp hpg
    | some pb =>
      simp only [hp]
      by_cases hpa : pb + VM_RESERV_INDEX obj pindex * PAGE_SIZE < low ∨
          high < pb + VM_RESERV_INDEX obj pindex * PAGE_SIZE +
            npages <<< PAGE_SHIFT ∨
          ¬ (pb + VM_RESERV_INDEX obj pindex * PAGE_SIZE &&&
              cSub64 alignment 1 = 0) ∨
          ¬ ((pb + VM_RESERV_INDEX obj pindex * PAGE_SIZE ^^^
              (pb + VM_RESERV_INDEX obj pindex * PAGE_SIZE +
                npages <<< PAGE_SHIFT - 1)) &&&
              cNot64 (cSub64 boundary 1) = 0)
      · rw [if_pos hpa]
      · rw [if_neg hpa]
        have hany : (List.range npages).any
            (fun k => popmap_is_set (s.rvs r).popmap
              (VM_RESERV_INDEX obj pindex + k)) = true := by
          refine List.any_eq_true.mpr ⟨j, List.mem_range.mpr ?_, ?_⟩
          · omega
          · simpa [hidx] using hset
        rw [if_pos hany]

/-- C6 witness: `gA`'s reservation 0 (one slot populated) rejects a
512-page request on the found branch, unchanged. -/
theorem C6_witness :
    vm_reserv_alloc_contig_found gA ⟨1024, 0, false, false⟩ 0 512 0 (2 ^ 40)
      1 0 0 = some (gA, none) :=
  C6_alloc_contig_found_npages_exceeding gA ⟨1024, 0, false, false⟩ 0 512 0
    (2 ^ 40) 1 0 0 (by decide) (by decide) 0 (by decide) (by decide)

theorem cSub64_eq_sub (a b : Nat) (hb : b ≤ a) (ha : a < UL64) :
    cSub64 a b = a - b := by
  have hblt : b < UL64 := lt_of_le_of_lt hb ha
  have hb' : b % UL64 = b := Nat.mod_eq_of_lt hblt
  unfold cSub64
  rw [hb']
  have h1 : a + (UL64 - b) = UL64 + (a - b) := by omega
  rw [h1, Nat.add_mod_left]
  exact Nat.mod_eq_of_lt (by omega)


/-- C10: `rename(m, new_object, old_object, old_offset)`: if the
reservation holding `m` is not bound to `old_object` (the sequential
embedding's single check stands for the unlocked check and the
re-check under the shard lock), nothing changes; otherwise the
reservation moves from `old_object`'s list to the head of
`new_object`'s list and its `pindex` becomes the old `pindex` minus
`old_offset` (written inside `seq` brackets, so `seq` advances by 2),
while `popmap`, `popcnt`, `flags`, `actcnt`, both LRU queues, the
other objects' lists and the counters are untouched. -/
theorem C10_rename (s : GState) (m : VPage) (new_object : Nat)
    (old_object : Option Nat) (off : Nat) :
    ((s.rvs m.rv).object ≠ old_object →
      vm_reserv_rename s m new_object old_object off = some s) ∧
    (∀ o, (s.rvs m.rv).object = some o → old_object = some o →
      o ≠ new_object → off ≤ (s.rvs m.rv).pindex →
      (s.rvs m.rv).pindex < UL64 →
      ∃ s', vm_reserv_rename s m new_object old_object off = some s' ∧
        s'.rvs m.rv = { s.rvs m.rv with
                        object := some new_object,
                        pindex := (s.rvs m.rv).pindex - off,
                        seq := (s.rvs m.rv).seq + 2 } ∧
        (∀ r', r' ≠ m.rv → s'.rvs r' = s.rvs r') ∧
        s'.objq o = (s.objq o).erase m.rv ∧
        s'.objq new_object = m.rv :: s.objq new_object ∧
        (∀ o', o' ≠ o → o' ≠ new_object → s'.objq o' = s.objq o') ∧
        s'.lruActive = s.lruActive ∧ s'.lruInactive = s.lruInactive ∧
        s'.freedCnt = s.freedCnt ∧ s'.brokenCnt = s.brokenCnt ∧
        s'.reclaimedCnt = s.reclaimedCnt ∧ s'.events = s.events) := by
  constructor
  · intro hne
    simp [vm_reserv_rename, vm_reserv_from_page, hne]
  · intro o hobj hold hnew hle hlt
    have hrv : vm_reserv_set_object (s.rvs m.rv) (some new_object)
        (cSub64 (s.rvs m.rv).pindex off) =
        { s.rvs m.rv with
          object := some new_object,
          pindex := (s.rvs m.rv).pindex - off,
          seq := (s.rvs m.rv).seq + 2 } := by
      simp [vm_reserv_set_object, cSub64_eq_sub _ _ hle hlt]
    have heq : vm_reserv_rename s m new_object old_object off =
        some (setRv (setObjq (setObjq s o ((s.objq o).erase m.rv)) new_object
          (m.rv :: s.objq new_object)) m.rv
          ({ s.rvs m.rv with
             object := some new_object,
             pindex := (s.rvs m.rv).pindex - off,
             seq := (s.rvs m.rv).seq + 2 })) := by
      unfold vm_reserv_rename vm_reserv_from_page
      rw [hold]
      simp only [hobj, if_pos, setObjq]
      rw [hrv]
      have hq : (fun o' => if o' = o then (s.objq o).erase m.rv else s.objq o')
          new_object = s.objq new_object := by
        simp [Ne.symm hnew]
      simp [setObjq, hq]
    refine ⟨_, heq, ?_, ?_, ?_, ?_, ?_, rfl, rfl, rfl, rfl, rfl, rfl⟩
    · simp [setRv]
    · intro r' hr'
      simp [setRv, setObjq, hr']
    · simp [setRv, setObjq, hnew]
    · simp [setRv, setObjq]
    · intro o' h1 h2
      simp [setRv, setObjq, h1, h2]

/-- C10 witness: renaming `gA`'s page (0,0) from object 7 to object 9
succeeds, and a mismatching `old_object = some 8` leaves the state
unchanged. -/
theorem C10_witness :
    vm_reserv_rename gA ⟨0, 0, some 7, 0⟩ 9 (some 8) 0 = some gA ∧
    ¬ (vm_reserv_rename gA ⟨0, 0, some 7, 0⟩ 9 (some 7) 0 = none) := by
  constructor
  · exact (C10_rename gA ⟨0, 0, some 7, 0⟩ 9 (some 8) 0).1 (by decide)
  · obtain ⟨s', hs', -⟩ :=
      (C10_rename gA ⟨0, 0, some 7, 0⟩ 9 (some 7) 0).2 7 rfl rfl (by decide)
        (by decide) (by decide)
    rw [hs']
    exact Option.some_ne_none s'

theorem lru_dequeue_psind (s : GState) (r : Nat) (s' : GState)
    (h : vm_reserv_lru_dequeue s r = some s') :
    ∀ r', (s'.rvs r').psind = (s.rvs r').psind := by
  unfold vm_reserv_lru_dequeue at h
  dsimp only [] at h
  split_ifs at h with h1 h2 h3 h4 <;> injection h with h <;> subst h <;>
    intro r' <;> by_cases hr : r' = r <;> simp [setRv, hr]

theorem update_lru_psind (s : GState) (r : Nat) (a : Int) (s' : GState)
    (h : vm_reserv_update_lru s r a = some s') :
    ∀ r', (s'.rvs r').psind = (s.rvs r').psind := by
  unfold vm_reserv_update_lru at h
  dsimp only [] at h
  by_cases h1 : (s.rvs r).popcnt = VM_LEVEL_0_NPAGES
  · rw [if_pos h1] at h
    split_ifs at h with h2 h3
    all_goals first
      | injection h
      | exact lru_dequeue_psind s r s' h
  · rw [if_neg h1] at h
    by_cases h2 : (s.rvs r).popcnt = 0
    · rw [if_pos h2] at h
      split at h
      · injection h
      · rename_i o hobj
        split at h
        · injection h
        · rename_i s1 hdq
          injection h with h
          subst h
          intro r'
          have hp := lru_dequeue_psind _ r s1 hdq r'
          dsimp only [GState.rvs] at hp ⊢
          rw [hp]
          by_cases hr : r' = r <;>
            simp [setObjq, setRv, vm_reserv_set_object, hr]
    · rw [if_neg h2] at h
      by_cases h3 : (s.rvs r).flags &&& VM_RESERV_F_ACTIVE = 0
      · rw [if_pos h3] at h
        split at h
        · injection h
        · rename_i s1 hif
          injection h with h
          subst h
          intro r'
          have hbase : ∀ r'',
              ((setRv s r { s.rvs r with actcnt := RV_INIT }).rvs r'').psind =
                (s.rvs r'').psind := by
            intro r''
            by_cases hr : r'' = r <;> simp [setRv, hr]
          have hp1 : ∀ r'', (s1.rvs r'').psind = (s.rvs r'').psind := by
            intro r''
            by_cases hin : (s.rvs r).flags &&& VM_RESERV_F_INACTIVE = 0
            · rw [if_neg (not_not_intro hin)] at hif
              injection hif with hif
              subst hif
              exact hbase r''
            · rw [if_pos hin] at hif
              exact (lru_dequeue_psind _ r s1 hif r'').trans (hbase r'')
          by_cases hr : r' = r <;> simp [setRv, hr, hp1]
      · rw [if_neg h3] at h
        injection h with h
        subst h
        intro r'
        by_cases hr : r' = r <;> simp [setRv, hr]

theorem break_finish_psind (s : GState) (r : Nat) (rv : RState) (s' : GState)
    (h : vm_reserv_break_finish s r rv = some s')
    (hps : rv.psind = (s.rvs r).psind) :
    ∀ r', (s'.rvs r').psind = (s.rvs r').psind := by
  unfold vm_reserv_break_finish at h
  split at h
  rename_i pm pc freed heq
  by_cases hpc : pc = 0
  · rw [if_neg (not_not_intro hpc)] at h
    injection h with h
    subst h
    intro r'
    by_cases hr : r' = r <;> simp [setRv, hr, hps]
  · rw [if_pos hpc] at h
    injection h

theorem break_psind (s : GState) (r : Nat) (mi : Option Nat) (s' : GState)
    (h : vm_reserv_break s r mi = some s') :
    ∀ r', (s'.rvs r').psind = (s.rvs r').psind := by
  unfold vm_reserv_break at h
  dsimp only [] at h
  by_cases h1 : (s.rvs r).flags &&& VM_RESERV_F_PARTPOP = 0
  · rw [if_neg (not_not_intro h1)] at h
    split at h
    · injection h
    · rename_i o hobj
      split at h
      · intro r'
        have := break_finish_psind _ r _ s' h
          (by simp [vm_reserv_set_object, setObjq]) r'
        simpa [setObjq] using this
      · rename_i mi'
        by_cases hclr : popmap_is_clear
            (vm_reserv_set_object (s.rvs r) none (s.rvs r).pindex).popmap mi' =
            true
        · rw [if_neg (not_not_intro hclr)] at h
          intro r'
          have := break_finish_psind _ r _ s' h
            (by simp [vm_reserv_set_object, setObjq]) r'
          simpa [setObjq] using this
        · rw [if_pos hclr] at h
          injection h
  · rw [if_pos h1] at h
    injection h

theorem break_all_go_psind : ∀ (fuel : Nat) (s : GState) (o : Nat) (s' : GState),
    vm_reserv_break_all_go s o fuel = some s' →
    ∀ r', (s'.rvs r').psind = (s.rvs r').psind := by
  intro fuel
  induction fuel with
  | zero =>
    intro s o s' h r'
    unfold vm_reserv_break_all_go at h
    split at h
    · injection h with h; subst h; rfl
    · injection h
  | succ fuel ih =>
    intro s o s' h r'
    unfold vm_reserv_break_all_go at h
    split at h
    · injection h with h; subst h; rfl
    · rename_i r rest hlist
      by_cases hko : (s.rvs r).object = some o
      · rw [if_neg (not_not_intro hko)] at h
        by_cases hpp : (s.rvs r).flags &&& VM_RESERV_F_PARTPOP = 0
        · rw [if_neg (not_not_intro hpp)] at h
          dsimp only [] at h
          split at h
          · injection h
          · rename_i s2 hs2
            rw [ih s2 o s' h r', break_psind s r none s2 hs2 r']
        · rw [if_pos hpp] at h
          split at h
          · injection h
          · rename_i s1 hs1
            split at h
            · injection h
            · rename_i s2 hs2
              rw [ih s2 o s' h r', break_psind s1 r none s2 hs2 r',
                lru_dequeue_psind s r s1 hs1 r']
      · rw [if_pos hko] at h
        injection h

theorem break_all_psind (s : GState) (o : Nat) (s' : GState)
    (h : vm_reserv_break_all s o = some s') :
    ∀ r', (s'.rvs r').psind = (s.rvs r').psind :=
  break_all_go_psind _ s o s' h

theorem reclaim_psind (s : GState) (r : Nat) (s' : GState)
    (h : vm_reserv_reclaim s r = some s') :
    ∀ r', (s'.rvs r').psind = (s.rvs r').psind := by
  unfold vm_reserv_reclaim at h
  by_cases h1 : (s.rvs r).flags &&& VM_RESERV_F_PARTPOP = 0
  · rw [if_pos h1] at h
    injection h
  · rw [if_neg h1] at h
    split at h
    · injection h
    · rename_i s1 hdq
      split at h
      · injection h
      · rename_i s2 hbr
        injection h with h
        subst h
        intro r'
        exact ((break_psind s1 r none s2 hbr r').trans
          (lru_dequeue_psind s r s1 hdq r'))

theorem rename_psind (s : GState) (m : VPage) (no : Nat) (oo : Option Nat)
    (off : Nat) (s' : GState)
    (h : vm_reserv_rename s m no oo off = some s') :
    ∀ r', (s'.rvs r').psind = (s.rvs r').psind := by
  unfold vm_reserv_rename at h
  dsimp only [] at h
  by_cases h1 : (s.rvs (vm_reserv_from_page m)).object = oo
  · rw [if_pos h1] at h
    split at h
    · injection h
    · rename_i o hobj
      injection h with h
      subst h
      intro r'
      by_cases hr : r' = m.rv <;>
        simp [setRv, setObjq, vm_reserv_set_object, vm_reserv_from_page, hr]
  · rw [if_neg h1] at h
    injection h with h
    subst h
    intro r'
    rfl

theorem scan_loop_psind : ∀ (l : List (Option Nat)) (tl : Nat → Bool)
    (s : GState) (target : Nat) (s' : GState) (stop : Option (Option Nat)),
    vm_reserv_scan_loop tl s l target = some (s', stop) →
    ∀ r', (s'.rvs r').psind = (s.rvs r').psind := by
  intro l
  induction l with
  | nil =>
    intro tl s target s' stop h r'
    unfold vm_reserv_scan_loop at h
    injection h with h
    rw [(Prod.mk.injEq _ _ _ _).mp h |>.1]
  | cons e rest ih =>
    intro tl s target s' stop h r'
    unfold vm_reserv_scan_loop at h
    by_cases htgt : target = 0
    · rw [if_pos htgt] at h
      injection h with h
      rw [(Prod.mk.injEq _ _ _ _).mp h |>.1]
    · rw [if_neg htgt] at h
      match e with
      | none =>
        dsimp only [] at h
        exact ih tl s target s' stop h r'
      | some r =>
        dsimp only [] at h
        by_cases htl : tl r = true
        · rw [if_neg (not_not_intro htl)] at h
          by_cases hact : (s.rvs r).actcnt - RV_DEC ≤ 0
          · rw [if_pos hact] at h
            split at h
            · injection h
            · rename_i s1 hdq
              have h2 := ih tl _ _ s' stop h r'
              rw [h2]
              have h3 := lru_dequeue_psind s r s1 hdq r'
              by_cases hr : r' = r <;> simp_all [setRv, hr]
          · rw [if_neg hact] at h
            have h2 := ih tl _ _ s' stop h r'
            rw [h2]
            by_cases hr : r' = r <;> simp [setRv, hr]
        · rw [if_pos htl] at h
          exact ih tl s target s' stop h r'

theorem scan_psind (s : GState) (target : Nat) (tl : Nat → Bool) (s' : GState)
    (h : vm_reserv_scan s target tl = some s') :
    ∀ r', (s'.rvs r').psind = (s.rvs r').psind := by
  unfold vm_reserv_scan at h
  dsimp only [] at h
  cases hloop : vm_reserv_scan_loop tl s
      (if tailAfterMarker s.lruActive = [] then s.lruActive
       else tailAfterMarker s.lruActive) target with
  | none => rw [hloop] at h; injection h
  | some p =>
    obtain ⟨s1, stop⟩ := p
    rw [hloop] at h
    dsimp only [] at h
    have h1 := scan_loop_psind _ tl s target s1 stop hloop
    cases stop with
    | none =>
      injection h with h
      subst h
      exact h1
    | some e =>
      dsimp only [] at h
      by_cases hmk : e = none
      · rw [if_pos hmk] at h
        injection h
      · rw [if_neg hmk] at h
        injection h with h
        subst h
        exact h1

theorem populate_psind_char (s : GState) (r : Nat) (i : Nat) (s' : GState)
    (h : vm_reserv_populate s r i = some s') :
    ((s'.rvs r).psind =
      (if (s.rvs r).popcnt = VM_LEVEL_0_NPAGES - 1 then 1
       else (s.rvs r).psind)) ∧
    ∀ r', r' ≠ r → (s'.rvs r').psind = (s.rvs r').psind := by
  unfold vm_reserv_populate at h
  dsimp only [] at h
  by_cases h1 : (s.rvs r).object = none
  · rw [if_pos h1] at h; injection h
  · rw [if_neg h1] at h
    by_cases h2 : popmap_is_clear (s.rvs r).popmap i = true
    · rw [if_neg (not_not_intro h2)] at h
      by_cases h3 : (s.rvs r).popcnt < VM_LEVEL_0_NPAGES
      · rw [if_neg (not_not_intro h3)] at h
        by_cases h4 : (s.rvs r).psind = 0
        · rw [if_neg (not_not_intro h4)] at h
          have hup := update_lru_psind _ r RV_POP_STEP s' h
          have hNval : VM_LEVEL_0_NPAGES = 512 := rfl
          constructor
          · have := hup r
            rw [this]
            by_cases hN : (s.rvs r).popcnt + 1 = VM_LEVEL_0_NPAGES
            · rw [if_pos hN, if_pos (by omega)]
              simp [setRv]
            · rw [if_neg hN, if_neg (by omega)]
              simp [setRv, h4]
          · intro r' hr
            rw [hup r']
            by_cases hN : (s.rvs r).popcnt + 1 = VM_LEVEL_0_NPAGES <;>
              simp [setRv, hr, hN]
        · rw [if_pos h4] at h; injection h
      · rw [if_pos h3] at h; injection h
    · rw [if_pos h2] at h; injection h

theorem depopulate_psind_char (s : GState) (r : Nat) (i : Nat) (s' : GState)
    (h : vm_reserv_depopulate s r i = some s') :
    ((s'.rvs r).psind =
      (if (s.rvs r).popcnt = VM_LEVEL_0_NPAGES then 0
       else (s.rvs r).psind)) ∧
    ∀ r', r' ≠ r → (s'.rvs r').psind = (s.rvs r').psind := by
  unfold vm_reserv_depopulate at h
  dsimp only [] at h
  by_cases h1 : (s.rvs r).object = none
  · rw [if_pos h1] at h; injection h
  · rw [if_neg h1] at h
    by_cases h2 : popmap_is_set (s.rvs r).popmap i = true
    · rw [if_neg (not_not_intro h2)] at h
      by_cases h3 : (s.rvs r).popcnt = 0
      · rw [if_pos h3] at h; injection h
      · rw [if_neg h3] at h
        by_cases hN : (s.rvs r).popcnt = VM_LEVEL_0_NPAGES
        · rw [if_pos hN] at h
          by_cases h4 : (s.rvs r).psind = 1
          · rw [if_neg (not_not_intro h4)] at h
            by_cases h5 : (s.rvs r).flags &&& VM_RESERV_F_PARTPOP = 0
            · rw [if_neg (not_not_intro h5)] at h
              have hup := update_lru_psind _ r RV_DEPOP_STEP s' h
              constructor
              · rw [hup r, if_pos hN]
                simp [setRv]
              · intro r' hr
                rw [hup r']
                simp [setRv, hr]
            · rw [if_pos h5] at h; injection h
          · rw [if_pos h4] at h; injection h
        · rw [if_neg hN] at h
          have hup := update_lru_psind _ r RV_DEPOP_STEP s' h
          constructor
          · rw [hup r, if_neg hN]
            simp [setRv]
          · intro r' hr
            rw [hup r']
            simp [setRv, hr]
    · rw [if_pos h2] at h; injection h

/-- C1: the only writes of the base page's size hint `psind` in this
module are in `vm_reserv_populate`, which sets it to 1 exactly when the
call raises `popcnt` from `N − 1` to `N`, and `vm_reserv_depopulate`,
which sets it to 0 exactly when the call lowers `popcnt` from `N` to
`N − 1` (otherwise both leave every `psind` unchanged); `vm_reserv_break`,
`vm_reserv_break_all`, `vm_reserv_reclaim`, `vm_reserv_rename` and
`vm_reserv_scan` never change any reservation's `psind`. -/
theorem C1_psind_writes :
    (∀ s r i s', vm_reserv_populate s r i = some s' →
      ((s'.rvs r).psind =
        (if (s.rvs r).popcnt = VM_LEVEL_0_NPAGES - 1 then 1
         else (s.rvs r).psind)) ∧
      ∀ r', r' ≠ r → (s'.rvs r').psind = (s.rvs r').psind) ∧
    (∀ s r i s', vm_reserv_depopulate s r i = some s' →
      ((s'.rvs r).psind =
        (if (s.rvs r).popcnt = VM_LEVEL_0_NPAGES then 0
         else (s.rvs r).psind)) ∧
      ∀ r', r' ≠ r → (s'.rvs r').psind = (s.rvs r').psind) ∧
    (∀ s r mi s', vm_reserv_break s r mi = some s' →
      ∀ r', (s'.rvs r').psind = (s.rvs r').psind) ∧
    (∀ s o s', vm_reserv_break_all s o = some s' →
      ∀ r', (s'.rvs r').psind = (s.rvs r').psind) ∧
    (∀ s r s', vm_reserv_reclaim s r = some s' →
      ∀ r', (s'.rvs r').psind = (s.rvs r').psind) ∧
    (∀ s m no oo off s', vm_reserv_rename s m no oo off = some s' →
      ∀ r', (s'.rvs r').psind = (s.rvs r').psind) ∧
    (∀ s t tl s', vm_reserv_scan s t tl = some s' →
      ∀ r', (s'.rvs r').psind = (s.rvs r').psind) :=
  ⟨populate_psind_char, depopulate_psind_char, break_psind, break_all_psind,
    reclaim_psind, rename_psind, scan_psind⟩

/-- C1 witness: populating slot 1 of `gA`'s reservation (popcnt 1 → 2)
leaves `psind` as the characterization demands. -/
theorem C1_witness :
    (gA_pop.rvs 0).psind =
      (if (gA.rvs 0).popcnt = VM_LEVEL_0_NPAGES - 1 then 1
       else (gA.rvs 0).psind) :=
  (C1_psind_writes.1 gA 0 1 gA_pop rfl).1

theorem lru_dequeue_eq_active (s : GState) (r : Nat)
    (hf : (s.rvs r).flags = VM_RESERV_F_ACTIVE) :
    vm_reserv_lru_dequeue s r =
      some (setRv { s with lruActive := s.lruActive.erase (some r) } r
        { s.rvs r with flags := 0 }) := by
  unfold vm_reserv_lru_dequeue
  dsimp only []
  rw [hf]
  exact rfl

theorem lru_dequeue_eq_inactive (s : GState) (r : Nat)
    (hf : (s.rvs r).flags = VM_RESERV_F_INACTIVE) :
    vm_reserv_lru_dequeue s r =
      some (setRv { s with lruInactive := s.lruInactive.erase (some r) } r
        { s.rvs r with flags := 0 }) := by
  unfold vm_reserv_lru_dequeue
  dsimp only []
  rw [hf]
  exact rfl

/-- C4: when `depopulate` drops `popcnt` from 1 to 0 the LRU update
procedure destroys the reservation: `object` is cleared inside `seq`
write brackets (`seq` advances by 2), the record is unlinked from its
object's list, dequeued from the one LRU queue it was on, the whole
run is returned to the physical allocator as a single order-`N` free,
and the freed counter rises by exactly 1. -/
theorem C4_depopulate_to_zero (s : GState) (r i o : Nat)
    (hobj : (s.rvs r).object = some o)
    (hset : popmap_is_set (s.rvs r).popmap i = true)
    (hcnt : (s.rvs r).popcnt = 1)
    (hf : (s.rvs r).flags = VM_RESERV_F_ACTIVE ∨
      (s.rvs r).flags = VM_RESERV_F_INACTIVE) :
    ∃ s', vm_reserv_depopulate s r i = some s' ∧
      (s'.rvs r).object = none ∧
      (s'.rvs r).seq = (s.rvs r).seq + 2 ∧
      (s'.rvs r).popcnt = 0 ∧
      (s'.rvs r).psind = (s.rvs r).psind ∧
      (∀ r', r' ≠ r → s'.rvs r' = s.rvs r') ∧
      s'.objq o = (s.objq o).erase r ∧
      (∀ o', o' ≠ o → s'.objq o' = s.objq o') ∧
      s'.lruActive = (if (s.rvs r).flags = VM_RESERV_F_ACTIVE then
        s.lruActive.erase (some r) else s.lruActive) ∧
      s'.lruInactive = (if (s.rvs r).flags = VM_RESERV_F_ACTIVE then
        s.lruInactive else s.lruInactive.erase (some r)) ∧
      s'.events = s.events ++ [PhysEvent.freePages r 0 VM_LEVEL_0_ORDER] ∧
      s'.freedCnt = s.freedCnt + 1 ∧
      s'.brokenCnt = s.brokenCnt ∧
      s'.reclaimedCnt = s.reclaimedCnt := by
  have hobj' : ¬ ((s.rvs r).object = none) := by simp [hobj]
  have hup : vm_reserv_depopulate s r i =
      vm_reserv_update_lru
        (setRv s r
          { s.rvs r with
            popmap := popmap_clear (s.rvs r).popmap i,
            popcnt := (s.rvs r).popcnt - 1 }) r RV_DEPOP_STEP := by
    unfold vm_reserv_depopulate
    dsimp only []
    rw [if_neg hobj', if_neg (not_not_intro hset), if_neg (by rw [hcnt]; decide),
      if_neg (by rw [hcnt]; decide)]
  have hXr : (setRv s r
      ({ s.rvs r with
         popmap := popmap_clear (s.rvs r).popmap i,
         popcnt := (s.rvs r).popcnt - 1 })).rvs r =
      { s.rvs r with
        popmap := popmap_clear (s.rvs r).popmap i,
        popcnt := (s.rvs r).popcnt - 1 } := by
    simp [setRv]
  rcases hf with hfa | hfi
  · rw [hup]
    unfold vm_reserv_update_lru
    dsimp only []
    rw [hXr]
    dsimp only []
    rw [hcnt]
    rw [if_neg (by decide), if_pos (by decide)]
    rw [hobj]
    dsimp only []
    rw [lru_dequeue_eq_active _ r
      (by simp [setRv, setObjq, vm_reserv_set_object, hfa])]
    refine ⟨_, rfl, ?_, ?_, ?_, ?_, ?_, ?_, ?_, ?_, ?_, ?_, ?_, ?_, ?_⟩ <;>
      first
        | (intro x hx
           simp [setRv, setObjq, vm_reserv_set_object, hfa, hx])
        | (simp [setRv, setObjq, vm_reserv_set_object, hfa]
           try omega)
  · have hne : ¬ ((s.rvs r).flags = VM_RESERV_F_ACTIVE) := by
      rw [hfi]
      decide
    rw [hup]
    unfold vm_reserv_update_lru
    dsimp only []
    rw [hXr]
    dsimp only []
    rw [hcnt]
    rw [if_neg (by decide), if_pos (by decide)]
    rw [hobj]
    dsimp only []
    rw [lru_dequeue_eq_inactive _ r
      (by simp [setRv, setObjq, vm_reserv_set_object, hfi])]
    refine ⟨_, rfl, ?_, ?_, ?_, ?_, ?_, ?_, ?_, ?_, ?_, ?_, ?_, ?_, ?_⟩ <;>
      first
        | (intro x hx
           simp [setRv, setObjq, vm_reserv_set_object, hfi, hne, hx])
        | (simp [setRv, setObjq, vm_reserv_set_object, hfi, hne]
           try omega
           try rw [if_neg (by decide)])

/-- Witness for C4 at the concrete state `gA` (slot 0 populated, popcnt 1,
flags ACTIVE, object 7). -/
theorem C4_witness : (vm_reserv_depopulate gA 0 0).isSome = true := by
  obtain ⟨s', hs', -⟩ := C4_depopulate_to_zero gA 0 0 7 rfl rfl rfl (Or.inl rfl)
  rw [hs']
  rfl

theorem list_getD_set (l : List Nat) (q a : Nat) (h : q < l.length) :
    (l.set q a).getD q 0 = a := by
  induction l generalizing q with
  | nil => simp at h
  | cons x t ih =>
    cases q with
    | zero => rfl
    | succ q => simpa [List.set] using ih q (by simpa using h)

theorem list_set_getD_self (l : List Nat) (q : Nat) :
    l.set q (l.getD q 0) = l := by
  induction l generalizing q with
  | nil => rfl
  | cons x t ih =>
    cases q with
    | zero => rfl
    | succ q => simpa [List.set] using ih q

theorem or_and_not64 (w k : Nat) (hw : w < UL64) (hk : k < 64)
    (hc : w &&& (1 <<< k) = 0) :
    (w ||| (1 <<< k)) &&& cNot64 (1 <<< k) = w := by
  have h2 : (1 <<< k) = 2 ^ k := by rw [Nat.shiftLeft_eq, one_mul]
  have hlt : 2 ^ k < UL64 := by
    have h := Nat.pow_lt_pow_right (by norm_num : 1 < 2) hk
    simpa [UL64] using h
  have hbit : w.testBit k = false := by
    have h := congrArg (fun n => n.testBit k) hc
    simpa [h2, Nat.testBit_and, Nat.testBit_two_pow_self,
      Nat.zero_testBit] using h
  apply Nat.eq_of_testBit_eq
  intro j
  rw [h2, cNot64, Nat.mod_eq_of_lt hlt, Nat.testBit_and, Nat.testBit_or,
    Nat.testBit_xor, show UL64 - 1 = 2 ^ 64 - 1 from rfl,
    Nat.testBit_two_pow_sub_one]
  by_cases hj : j = k
  · subst hj
    simp [Nat.testBit_two_pow_self, hbit, hk]
  · by_cases hj64 : j < 64
    · simp [Nat.testBit_two_pow_of_ne (Ne.symm hj), hj64]
    · have hwj : w.testBit j = false := by
        apply Nat.testBit_eq_false_of_lt
        calc w < UL64 := hw
          _ ≤ 2 ^ j := by
            simpa [UL64] using Nat.pow_le_pow_right (by norm_num : 1 ≤ 2)
              (le_of_not_lt hj64)
      simp [Nat.testBit_two_pow_of_ne (Ne.symm hj), hj64, hwj]

theorem or_and_self_ne_zero (w k : Nat) :
    ¬ ((w ||| 1 <<< k) &&& (1 <<< k) = 0) := by
  intro h
  have h' := congrArg (fun n => n.testBit k) h
  simp [Nat.shiftLeft_eq, Nat.testBit_and, Nat.testBit_or,
    Nat.testBit_two_pow_self, Nat.zero_testBit] at h'

theorem popmap_set_clear_roundtrip (pm : List Nat) (i : Nat)
    (hc : popmap_is_clear pm i = true) (hw : ∀ w ∈ pm, w < UL64) :
    popmap_clear (popmap_set pm i) i = pm := by
  have hcP : pm.getD (i / NBPOPMAP) 0 &&& (1 <<< (i % NBPOPMAP)) = 0 := by
    simpa [popmap_is_clear] using hc
  unfold popmap_clear popmap_set
  by_cases hq : i / NBPOPMAP < pm.length
  · rw [list_getD_set _ _ _ hq, List.set_set]
    have hwlt : pm.getD (i / NBPOPMAP) 0 < UL64 := by
      rw [List.getD_eq_getElem pm 0 hq]
      exact hw _ (List.getElem_mem hq)
    rw [or_and_not64 _ (i % NBPOPMAP) hwlt
      (Nat.mod_lt i (by norm_num [NBPOPMAP])) hcP]
    exact list_set_getD_self pm _
  · have hle : pm.length ≤ i / NBPOPMAP := le_of_not_lt hq
    rw [List.set_eq_of_length_le hle, List.set_eq_of_length_le hle]

theorem actcnt_two_steps (a : Int) :
    (if (if a + RV_POP_STEP > RV_ACT_MAX then RV_ACT_MAX
          else a + RV_POP_STEP) + RV_DEPOP_STEP > RV_ACT_MAX then RV_ACT_MAX
      else (if a + RV_POP_STEP > RV_ACT_MAX then RV_ACT_MAX
          else a + RV_POP_STEP) + RV_DEPOP_STEP) =
      if a + 2 > RV_ACT_MAX then RV_ACT_MAX else a + 2 := by
  simp only [RV_POP_STEP, RV_DEPOP_STEP, RV_ACT_MAX]
  split_ifs <;> omega

theorem update_lru_active_eq (s : GState) (r : Nat) (adv : Int)
    (hne : ¬ ((s.rvs r).popcnt = VM_LEVEL_0_NPAGES))
    (h0 : ¬ ((s.rvs r).popcnt = 0))
    (hfa : (s.rvs r).flags = VM_RESERV_F_ACTIVE) :
    vm_reserv_update_lru s r adv =
      some (setRv s r { s.rvs r with
        actcnt := if (s.rvs r).actcnt + adv > RV_ACT_MAX then RV_ACT_MAX
          else (s.rvs r).actcnt + adv }) := by
  unfold vm_reserv_update_lru
  dsimp only []
  rw [if_neg hne, if_neg h0, if_neg (show ¬ ((s.rvs r).flags &&&
    VM_RESERV_F_ACTIVE = 0) by rw [hfa]; decide)]

/-- C5 (amended): on an ACTIVE reservation with `0 < popcnt` and
`popcnt + 1 < N`, `populate(R, i)` then `depopulate(R, i)` restores a
state identical to the prior one except that `actcnt` becomes
`min(actcnt + 2, RV_ACT_MAX)` — the count moves by the two LRU steps,
not by at most 1; queues, lists, counters and the allocator log are
untouched. -/
theorem C5_roundtrip_active (s : GState) (r i : Nat)
    (hobj : ¬ ((s.rvs r).object = none))
    (hclear : popmap_is_clear (s.rvs r).popmap i = true)
    (hcnt0 : 0 < (s.rvs r).popcnt)
    (hcntN : (s.rvs r).popcnt + 1 < VM_LEVEL_0_NPAGES)
    (hps : (s.rvs r).psind = 0)
    (hfa : (s.rvs r).flags = VM_RESERV_F_ACTIVE)
    (hi : i < VM_LEVEL_0_NPAGES)
    (hlen : (s.rvs r).popmap.length = NPOPMAP)
    (hwords : ∀ w ∈ (s.rvs r).popmap, w < UL64) :
    ∃ s', (vm_reserv_populate s r i).bind
        (fun s1 => vm_reserv_depopulate s1 r i) = some s' ∧
      s'.rvs r = { s.rvs r with
        actcnt := if (s.rvs r).actcnt + 2 > RV_ACT_MAX then RV_ACT_MAX
          else (s.rvs r).actcnt + 2 } ∧
      (∀ r', r' ≠ r → s'.rvs r' = s.rvs r') ∧
      s'.lruActive = s.lruActive ∧
      s'.lruInactive = s.lruInactive ∧
      s'.objq = s.objq ∧
      s'.events = s.events ∧
      s'.freedCnt = s.freedCnt ∧
      s'.brokenCnt = s.brokenCnt ∧
      s'.reclaimedCnt = s.reclaimedCnt := by
  have hq : i / NBPOPMAP < (s.rvs r).popmap.length := by
    rw [hlen]
    show i / 64 < 8
    have hi' : i < 512 := hi
    omega
  have hsetbit : popmap_is_set (popmap_set (s.rvs r).popmap i) i = true := by
    have h1 : ¬ ((popmap_set (s.rvs r).popmap i).getD (i / NBPOPMAP) 0 &&&
        (1 <<< (i % NBPOPMAP)) = 0) := by
      rw [popmap_set, list_getD_set _ _ _ hq]
      exact or_and_self_ne_zero _ _
    simp only [popmap_is_set, decide_eq_true_eq]
    exact h1
  unfold vm_reserv_populate
  dsimp only []
  rw [if_neg hobj, if_neg (not_not_intro hclear),
    if_neg (not_not_intro (by omega : (s.rvs r).popcnt < VM_LEVEL_0_NPAGES)),
    if_neg (not_not_intro hps), if_neg (Nat.ne_of_lt hcntN)]
  rw [update_lru_active_eq _ r RV_POP_STEP
    (by simp [setRv]; exact Nat.ne_of_lt hcntN)
    (by simp [setRv]) (by simp [setRv, hfa])]
  rw [Option.some_bind]
  unfold vm_reserv_depopulate
  dsimp only []
  simp only [setRv_rvs_self]
  rw [if_neg hobj, if_neg (not_not_intro hsetbit),
    if_neg (by omega : ¬ ((s.rvs r).popcnt + 1 = 0)),
    if_neg (Nat.ne_of_lt hcntN)]
  rw [update_lru_active_eq _ r RV_DEPOP_STEP
    (by simp [setRv]; omega)
    (by simp [setRv]; omega) (by simp [setRv, hfa])]
  refine ⟨_, rfl, ?_, ?_, ?_, ?_, ?_, ?_, ?_, ?_, ?_⟩
  · simp [setRv]
    rw [popmap_set_clear_roundtrip _ _ hclear hwords]
    exact ⟨actcnt_two_steps (s.rvs r).actcnt, rfl⟩
  · intro r' hr
    simp [setRv, hr]
  · simp [setRv]
  · simp [setRv]
  · simp [setRv]
  · simp [setRv]
  · simp [setRv]
  · simp [setRv]
  · simp [setRv]

/-- Witness for C5 (amended) at `gA`: populate slot 1 then depopulate
it on the active reservation 0. -/
theorem C5_witness : ((vm_reserv_populate gA 0 1).bind
    (fun s1 => vm_reserv_depopulate s1 0 1)).isSome = true := by
  obtain ⟨s', hs', -⟩ := C5_roundtrip_active gA 0 1 (by decide) rfl
    (by decide) (by decide) rfl rfl (by decide) rfl (by decide)
  rw [hs']
  rfl

theorem NBPOPMAP_eq : NBPOPMAP = 64 := rfl

theorem NPOPMAP_eq : NPOPMAP = 8 := rfl

theorem NPAGES_eq : VM_LEVEL_0_NPAGES = 512 := rfl

theorem UL64_eq : UL64 = 2 ^ 64 := rfl

theorem two_pow_le_of_ge (j : Nat) (h : 64 ≤ j) : UL64 ≤ 2 ^ j := by
  rw [UL64_eq]
  exact Nat.pow_le_pow_right (by norm_num) h

theorem testBit_high_false (x j : Nat) (hx : x < UL64) (hj : ¬ j < 64) :
    x.testBit j = false :=
  Nat.testBit_eq_false_of_lt (lt_of_lt_of_le hx
    (two_pow_le_of_ge j (le_of_not_lt hj)))

theorem ffsCore_le : ∀ (n x : Nat), ffsCore x n ≤ n := by
  intro n
  induction n with
  | zero => intro x; rfl
  | succ n ih =>
    intro x
    unfold ffsCore
    dsimp only []
    by_cases h2 : x % 2 = 1
    · rw [if_pos h2]; omega
    · rw [if_neg h2]
      have := ih (x / 2)
      by_cases hr : ffsCore (x / 2) n = 0
      · rw [if_pos hr]; omega
      · rw [if_neg hr]; omega

theorem ffsCore_eq_zero_iff : ∀ (n x : Nat),
    ffsCore x n = 0 ↔ ∀ j < n, x.testBit j = false := by
  intro n
  induction n with
  | zero => intro x; simp [ffsCore]
  | succ n ih =>
    intro x
    unfold ffsCore
    dsimp only []
    by_cases h2 : x % 2 = 1
    · rw [if_pos h2]
      constructor
      · intro h; omega
      · intro h
        have h0 := h 0 (Nat.succ_pos n)
        rw [Nat.testBit_zero] at h0
        simp [h2] at h0
    · rw [if_neg h2]
      have hb0 : x.testBit 0 = false := by
        rw [Nat.testBit_zero]
        simp [h2]
      by_cases hr : ffsCore (x / 2) n = 0
      · rw [if_pos hr]
        have hall := (ih (x / 2)).mp hr
        constructor
        · intro _ j hj
          cases j with
          | zero => exact hb0
          | succ j =>
            rw [Nat.testBit_succ]
            exact hall j (by omega)
        · intro _; rfl
      · rw [if_neg hr]
        constructor
        · intro h; omega
        · intro h
          exfalso
          apply hr
          apply (ih (x / 2)).mpr
          intro j hj
          rw [← Nat.testBit_succ]
          exact h (j + 1) (by omega)

theorem ffsCore_pos_spec : ∀ (n x h : Nat), ffsCore x n = h + 1 →
    h < n ∧ x.testBit h = true ∧ ∀ j < h, x.testBit j = false := by
  intro n
  induction n with
  | zero => intro x h hc; exact absurd hc (by simp [ffsCore])
  | succ n ih =>
    intro x h hc
    unfold ffsCore at hc
    dsimp only [] at hc
    by_cases h2 : x % 2 = 1
    · rw [if_pos h2] at hc
      have hh : h = 0 := by omega
      subst hh
      refine ⟨Nat.succ_pos n, ?_, by omega⟩
      rw [Nat.testBit_zero]
      simp [h2]
    · rw [if_neg h2] at hc
      have hb0 : x.testBit 0 = false := by
        rw [Nat.testBit_zero]
        simp [h2]
      by_cases hr : ffsCore (x / 2) n = 0
      · rw [if_pos hr] at hc; omega
      · rw [if_neg hr] at hc
        have hr1 : ffsCore (x / 2) n = (h - 1) + 1 := by omega
        obtain ⟨hlt, hset, hbelow⟩ := ih (x / 2) (h - 1) hr1
        have hh : h = (h - 1) + 1 := by omega
        refine ⟨by omega, ?_, ?_⟩
        · rw [hh, Nat.testBit_succ]
          exact hset
        · intro j hj
          cases j with
          | zero => exact hb0
          | succ j =>
            rw [Nat.testBit_succ]
            exact hbelow j (by omega)

theorem ffsl_le (w : Nat) : ffsl w ≤ 64 := ffsCore_le 64 (w % UL64)

theorem ffsl_eq_zero_iff (w : Nat) (hw : w < UL64) : ffsl w = 0 ↔ w = 0 := by
  unfold ffsl
  rw [Nat.mod_eq_of_lt hw, ffsCore_eq_zero_iff]
  constructor
  · intro h
    apply Nat.eq_of_testBit_eq
    intro j
    rw [Nat.zero_testBit]
    by_cases hj : j < 64
    · exact h j hj
    · exact testBit_high_false w j hw hj
  · intro h
    subst h
    intro j _
    exact Nat.zero_testBit j

theorem ffsl_pos_spec (w h : Nat) (hw : w < UL64) (hc : ffsl w = h + 1) :
    h < 64 ∧ w.testBit h = true ∧ ∀ j < h, w.testBit j = false := by
  unfold ffsl at hc
  rw [Nat.mod_eq_of_lt hw] at hc
  exact ffsCore_pos_spec 64 w h hc

theorem UL64_pos : 0 < UL64 := by
  rw [UL64_eq]
  positivity

theorem cNot64_lt (x : Nat) : cNot64 x < UL64 := by
  rw [cNot64, UL64_eq]
  apply Nat.xor_lt_two_pow
  · rw [← UL64_eq]
    exact Nat.sub_lt UL64_pos one_pos
  · rw [← UL64_eq]
    exact Nat.mod_lt _ UL64_pos

theorem cNot64_testBit (x j : Nat) (hx : x < UL64) :
    (cNot64 x).testBit j = (decide (j < 64) && ! x.testBit j) := by
  rw [cNot64, Nat.mod_eq_of_lt hx, Nat.testBit_xor,
    show UL64 - 1 = 2 ^ 64 - 1 from rfl, Nat.testBit_two_pow_sub_one]
  by_cases hj : j < 64
  · have hd : decide (j < 64) = true := by simp [hj]
    rw [hd]
    cases x.testBit j <;> rfl
  · have hb : x.testBit j = false := testBit_high_false x j hx hj
    have hd : decide (j < 64) = false := by simp [hj]
    rw [hd, hb]
    rfl

theorem list_getD_set_ne (l : List Nat) (q q' a : Nat) (h : q' ≠ q) :
    (l.set q a).getD q' 0 = l.getD q' 0 := by
  induction l generalizing q q' with
  | nil => rfl
  | cons x t ih =>
    cases q with
    | zero =>
      cases q' with
      | zero => exact absurd rfl h
      | succ q' => rfl
    | succ q =>
      cases q' with
      | zero => rfl
      | succ q' => simpa [List.set] using ih q q' (by omega)

theorem list_getD_ge (l : List Nat) (q : Nat) (h : l.length ≤ q) :
    l.getD q 0 = 0 := by
  induction l generalizing q with
  | nil => rfl
  | cons x t ih =>
    cases q with
    | zero => simp at h
    | succ q => simpa [List.getD] using ih q (by simpa using h)

theorem list_getD_lt (l : List Nat) (q : Nat) (hw : ∀ w ∈ l, w < UL64) :
    l.getD q 0 < UL64 := by
  by_cases h : q < l.length
  · rw [List.getD_eq_getElem l 0 h]
    exact hw _ (List.getElem_mem h)
  · rw [list_getD_ge l q (le_of_not_lt h)]
    exact UL64_pos

theorem words_lt_set (l : List Nat) (q v : Nat) (hw : ∀ w ∈ l, w < UL64)
    (hv : v < UL64) : ∀ w ∈ l.set q v, w < UL64 := by
  intro w hmem
  rcases List.mem_or_eq_of_mem_set hmem with h | h
  · exact hw w h
  · rw [h]; exact hv

theorem bitAt_eq (pm : List Nat) (i b : Nat) (hb : b < NBPOPMAP) :
    bitAt pm (NBPOPMAP * i + b) = (pm.getD i 0).testBit b := by
  have h1 : (NBPOPMAP * i + b) / NBPOPMAP = i := by
    rw [NBPOPMAP_eq] at hb ⊢
    omega
  have h2 : (NBPOPMAP * i + b) % NBPOPMAP = b := by
    rw [NBPOPMAP_eq] at hb ⊢
    omega
  rw [bitAt, h1, h2]

theorem bitAt_decompose (pm : List Nat) (j : Nat) :
    bitAt pm j = (pm.getD (j / NBPOPMAP) 0).testBit (j % NBPOPMAP) := rfl

theorem bitAt_set_word_ne (pm : List Nat) (q v j : Nat)
    (h : j / NBPOPMAP ≠ q) : bitAt (pm.set q v) j = bitAt pm j := by
  rw [bitAt_decompose, bitAt_decompose, list_getD_set_ne _ _ _ _ h]

theorem bitAt_set_word_eq (pm : List Nat) (q v j : Nat)
    (h : j / NBPOPMAP = q) (hq : q < pm.length) :
    bitAt (pm.set q v) j = v.testBit (j % NBPOPMAP) := by
  rw [bitAt_decompose, h, list_getD_set _ _ _ hq]

theorem pm_all_false_eq_replicate (pm : List Nat)
    (hlen : pm.length = NPOPMAP) (hw : ∀ w ∈ pm, w < UL64)
    (hall : ∀ j < VM_LEVEL_0_NPAGES, bitAt pm j = false) :
    pm = List.replicate NPOPMAP 0 := by
  apply List.ext_getElem
  · simp [hlen]
  · intro n h1 h2
    rw [List.getElem_replicate]
    apply Nat.eq_of_testBit_eq
    intro b
    rw [Nat.zero_testBit]
    by_cases hb : b < 64
    · have hn : n < NPOPMAP := by rw [← hlen]; exact h1
      have hj : NBPOPMAP * n + b < VM_LEVEL_0_NPAGES := by
        rw [NBPOPMAP_eq, NPAGES_eq]
        rw [NPOPMAP_eq] at hn
        omega
      have := hall _ hj
      rw [bitAt_eq pm n b (by rw [NBPOPMAP_eq]; exact hb)] at this
      rw [List.getD_eq_getElem pm 0 h1] at this
      exact this
    · exact testBit_high_false _ b (hw _ (List.getElem_mem h1)) hb

theorem findClearAux_fuel : ∀ (f1 : Nat), ∀ (f2 : Nat) (pm : List Nat)
    (p : Nat), VM_LEVEL_0_NPAGES - p < f1 → VM_LEVEL_0_NPAGES - p < f2 →
    findClearAux f1 pm p = findClearAux f2 pm p := by
  intro f1
  induction f1 with
  | zero => intro f2 pm p h1 h2; exact absurd h1 (Nat.not_lt_zero _)
  | succ f1 ih =>
    intro f2 pm p h1 h2
    cases f2 with
    | zero => exact absurd h2 (Nat.not_lt_zero _)
    | succ f2 =>
      rw [findClearAux, findClearAux]
      by_cases hp : p < VM_LEVEL_0_NPAGES
      · rw [if_pos hp, if_pos hp]
        by_cases hb : bitAt pm p = true
        · rw [if_pos hb, if_pos hb]
          exact ih f2 pm (p + 1) (by omega) (by omega)
        · rw [if_neg hb, if_neg hb]
      · rw [if_neg hp, if_neg hp]

theorem findSetAux_fuel : ∀ (f1 : Nat), ∀ (f2 : Nat) (pm : List Nat)
    (p : Nat), VM_LEVEL_0_NPAGES - p < f1 → VM_LEVEL_0_NPAGES - p < f2 →
    findSetAux f1 pm p = findSetAux f2 pm p := by
  intro f1
  induction f1 with
  | zero => intro f2 pm p h1 h2; exact absurd h1 (Nat.not_lt_zero _)
  | succ f1 ih =>
    intro f2 pm p h1 h2
    cases f2 with
    | zero => exact absurd h2 (Nat.not_lt_zero _)
    | succ f2 =>
      rw [findSetAux, findSetAux]
      by_cases hp : p < VM_LEVEL_0_NPAGES
      · rw [if_pos hp, if_pos hp]
        by_cases hb : bitAt pm p = true
        · rw [if_pos hb, if_pos hb]
        · rw [if_neg hb, if_neg hb]
          exact ih f2 pm (p + 1) (by omega) (by omega)
      · rw [if_neg hp, if_neg hp]

theorem countSetAux_fuel : ∀ (f1 : Nat), ∀ (f2 : Nat) (pm : List Nat)
    (p : Nat), VM_LEVEL_0_NPAGES - p < f1 → VM_LEVEL_0_NPAGES - p < f2 →
    countSetAux f1 pm p = countSetAux f2 pm p := by
  intro f1
  induction f1 with
  | zero => intro f2 pm p h1 h2; exact absurd h1 (Nat.not_lt_zero _)
  | succ f1 ih =>
    intro f2 pm p h1 h2
    cases f2 with
    | zero => exact absurd h2 (Nat.not_lt_zero _)
    | succ f2 =>
      rw [countSetAux, countSetAux]
      by_cases hp : p < VM_LEVEL_0_NPAGES
      · rw [if_pos hp, if_pos hp]
        rw [ih f2 pm (p + 1) (by omega) (by omega)]
      · rw [if_neg hp, if_neg hp]

theorem findClear_out (pm : List Nat) (p : Nat)
    (hp : ¬ p < VM_LEVEL_0_NPAGES) : findClear pm p = VM_LEVEL_0_NPAGES := by
  rw [findClear, findClearAux, if_neg hp]

theorem findClear_eq_self (pm : List Nat) (p : Nat)
    (hp : p < VM_LEVEL_0_NPAGES) (hb : bitAt pm p = false) :
    findClear pm p = p := by
  rw [findClear, findClearAux, if_pos hp, if_neg (by simp [hb])]

theorem findClear_step_set (pm : List Nat) (p : Nat)
    (hp : p < VM_LEVEL_0_NPAGES) (hb : bitAt pm p = true) :
    findClear pm p = findClear pm (p + 1) := by
  rw [findClear, findClear, findClearAux, if_pos hp, if_pos hb]
  exact findClearAux_fuel _ _ pm (p + 1) (by omega) (by omega)

theorem findSet_out (pm : List Nat) (p : Nat)
    (hp : ¬ p < VM_LEVEL_0_NPAGES) : findSet pm p = VM_LEVEL_0_NPAGES := by
  rw [findSet, findSetAux, if_neg hp]

theorem findSet_eq_self (pm : List Nat) (p : Nat)
    (hp : p < VM_LEVEL_0_NPAGES) (hb : bitAt pm p = true) :
    findSet pm p = p := by
  rw [findSet, findSetAux, if_pos hp, if_pos hb]

theorem findSet_step_clear (pm : List Nat) (p : Nat)
    (hp : p < VM_LEVEL_0_NPAGES) (hb : bitAt pm p = false) :
    findSet pm p = findSet pm (p + 1) := by
  rw [findSet, findSet, findSetAux, if_pos hp, if_neg (by simp [hb])]
  exact findSetAux_fuel _ _ pm (p + 1) (by omega) (by omega)

theorem countSet_out (pm : List Nat) (p : Nat)
    (hp : ¬ p < VM_LEVEL_0_NPAGES) : countSet pm p = 0 := by
  rw [countSet, countSetAux, if_neg hp]

theorem countSet_step (pm : List Nat) (p : Nat)
    (hp : p < VM_LEVEL_0_NPAGES) :
    countSet pm p = (if bitAt pm p then 1 else 0) + countSet pm (p + 1) := by
  rw [countSet, countSet, countSetAux, if_pos hp]
  rw [countSetAux_fuel _ (VM_LEVEL_0_NPAGES + 1) pm (p + 1) (by omega)
    (by omega)]

theorem findClear_of_all_set : ∀ (d : Nat) (pm : List Nat) (p : Nat),
    p + d ≤ VM_LEVEL_0_NPAGES →
    (∀ j, p ≤ j → j < p + d → bitAt pm j = true) →
    findClear pm p = findClear pm (p + d) := by
  intro d
  induction d with
  | zero => intro pm p _ _; rfl
  | succ d ih =>
    intro pm p hle hall
    rw [findClear_step_set pm p (by omega) (hall p (le_refl p) (by omega))]
    rw [ih pm (p + 1) (by omega) (fun j h1 h2 => hall j (by omega) (by omega))]
    congr 1
    omega

theorem findSet_of_all_clear : ∀ (d : Nat) (pm : List Nat) (p : Nat),
    p + d ≤ VM_LEVEL_0_NPAGES →
    (∀ j, p ≤ j → j < p + d → bitAt pm j = false) →
    findSet pm p = findSet pm (p + d) := by
  intro d
  induction d with
  | zero => intro pm p _ _; rfl
  | succ d ih =>
    intro pm p hle hall
    rw [findSet_step_clear pm p (by omega) (hall p (le_refl p) (by omega))]
    rw [ih pm (p + 1) (by omega) (fun j h1 h2 => hall j (by omega) (by omega))]
    congr 1
    omega

theorem countSet_of_all_set : ∀ (d : Nat) (pm : List Nat) (p : Nat),
    p + d ≤ VM_LEVEL_0_NPAGES →
    (∀ j, p ≤ j → j < p + d → bitAt pm j = true) →
    countSet pm p = d + countSet pm (p + d) := by
  intro d
  induction d with
  | zero => intro pm p _ _; simp
  | succ d ih =>
    intro pm p hle hall
    rw [countSet_step pm p (by omega),
      if_pos (hall p (le_refl p) (by omega)),
      ih pm (p + 1) (by omega) (fun j h1 h2 => hall j (by omega) (by omega))]
    have : p + 1 + d = p + (d + 1) := by omega
    rw [this]
    omega

theorem countSet_of_all_clear : ∀ (d : Nat) (pm : List Nat) (p : Nat),
    p + d ≤ VM_LEVEL_0_NPAGES →
    (∀ j, p ≤ j → j < p + d → bitAt pm j = false) →
    countSet pm p = countSet pm (p + d) := by
  intro d
  induction d with
  | zero => intro pm p _ _; rfl
  | succ d ih =>
    intro pm p hle hall
    rw [countSet_step pm p (by omega),
      if_neg (by simp [hall p (le_refl p) (by omega)]),
      ih pm (p + 1) (by omega) (fun j h1 h2 => hall j (by omega) (by omega))]
    have : p + 1 + d = p + (d + 1) := by omega
    rw [this]
    omega

theorem findClearAux_spec : ∀ (fuel : Nat) (pm : List Nat) (p : Nat),
    VM_LEVEL_0_NPAGES - p < fuel → p ≤ VM_LEVEL_0_NPAGES →
    p ≤ findClearAux fuel pm p ∧
    findClearAux fuel pm p ≤ VM_LEVEL_0_NPAGES ∧
    (findClearAux fuel pm p < VM_LEVEL_0_NPAGES →
      bitAt pm (findClearAux fuel pm p) = false) ∧
    (∀ j, p ≤ j → j < findClearAux fuel pm p → bitAt pm j = true) := by
  intro fuel
  induction fuel with
  | zero => intro pm p h1 _; exact absurd h1 (Nat.not_lt_zero _)
  | succ fuel ih =>
    intro pm p h1 hp
    rw [findClearAux]
    by_cases hlt : p < VM_LEVEL_0_NPAGES
    · rw [if_pos hlt]
      by_cases hb : bitAt pm p = true
      · rw [if_pos hb]
        obtain ⟨g1, g2, g3, g4⟩ := ih pm (p + 1) (by omega) (by omega)
        refine ⟨by omega, g2, g3, ?_⟩
        intro j hj1 hj2
        rcases Nat.eq_or_lt_of_le hj1 with h | h
        · rw [← h]; exact hb
        · exact g4 j h hj2
      · rw [if_neg hb]
        refine ⟨le_refl p, le_of_lt hlt, fun _ => by simpa using hb, ?_⟩
        intro j h1 h2
        omega
    · rw [if_neg hlt]
      refine ⟨by omega, le_refl _, by omega, ?_⟩
      intro j h1 h2
      omega

theorem findSetAux_spec : ∀ (fuel : Nat) (pm : List Nat) (p : Nat),
    VM_LEVEL_0_NPAGES - p < fuel → p ≤ VM_LEVEL_0_NPAGES →
    p ≤ findSetAux fuel pm p ∧
    findSetAux fuel pm p ≤ VM_LEVEL_0_NPAGES ∧
    (findSetAux fuel pm p < VM_LEVEL_0_NPAGES →
      bitAt pm (findSetAux fuel pm p) = true) ∧
    (∀ j, p ≤ j → j < findSetAux fuel pm p → bitAt pm j = false) := by
  intro fuel
  induction fuel with
  | zero => intro pm p h1 _; exact absurd h1 (Nat.not_lt_zero _)
  | succ fuel ih =>
    intro pm p h1 hp
    rw [findSetAux]
    by_cases hlt : p < VM_LEVEL_0_NPAGES
    · rw [if_pos hlt]
      by_cases hb : bitAt pm p = true
      · rw [if_pos hb]
        refine ⟨le_refl p, le_of_lt hlt, fun _ => hb, ?_⟩
        intro j h1 h2
        omega
      · rw [if_neg hb]
        obtain ⟨g1, g2, g3, g4⟩ := ih pm (p + 1) (by omega) (by omega)
        refine ⟨by omega, g2, g3, ?_⟩
        intro j hj1 hj2
        rcases Nat.eq_or_lt_of_le hj1 with h | h
        · rw [← h]; simpa using hb
        · exact g4 j h hj2
    · rw [if_neg hlt]
      refine ⟨by omega, le_refl _, by omega, ?_⟩
      intro j h1 h2
      omega

theorem findClear_spec (pm : List Nat) (p : Nat) (hp : p ≤ VM_LEVEL_0_NPAGES) :
    p ≤ findClear pm p ∧ findClear pm p ≤ VM_LEVEL_0_NPAGES ∧
    (findClear pm p < VM_LEVEL_0_NPAGES →
      bitAt pm (findClear pm p) = false) ∧
    (∀ j, p ≤ j → j < findClear pm p → bitAt pm j = true) :=
  findClearAux_spec _ pm p (by omega) hp

theorem findSet_spec (pm : List Nat) (p : Nat) (hp : p ≤ VM_LEVEL_0_NPAGES) :
    p ≤ findSet pm p ∧ findSet pm p ≤ VM_LEVEL_0_NPAGES ∧
    (findSet pm p < VM_LEVEL_0_NPAGES → bitAt pm (findSet pm p) = true) ∧
    (∀ j, p ≤ j → j < findSet pm p → bitAt pm j = false) :=
  findSetAux_spec _ pm p (by omega) hp

theorem findSet_gt_of_clear (pm : List Nat) (p : Nat)
    (hp : p < VM_LEVEL_0_NPAGES) (hb : bitAt pm p = false) :
    p + 1 ≤ findSet pm p := by
  obtain ⟨g1, g2, g3, g4⟩ := findSet_spec pm p (le_of_lt hp)
  rcases Nat.eq_or_lt_of_le g1 with h | h
  · exfalso
    have := g3 (by omega)
    rw [← h] at this
    rw [hb] at this
    exact Bool.false_ne_true this
  · omega

theorem countSet_congr_aux : ∀ (d : Nat) (pm pm' : List Nat) (p : Nat),
    VM_LEVEL_0_NPAGES ≤ p + d →
    (∀ j, p ≤ j → j < VM_LEVEL_0_NPAGES → bitAt pm' j = bitAt pm j) →
    countSet pm' p = countSet pm p := by
  intro d
  induction d with
  | zero =>
    intro pm pm' p hd _
    rw [countSet_out pm p (by omega), countSet_out pm' p (by omega)]
  | succ d ih =>
    intro pm pm' p hd h
    by_cases hp : p < VM_LEVEL_0_NPAGES
    · rw [countSet_step pm p hp, countSet_step pm' p hp,
        h p (le_refl p) hp,
        ih pm pm' (p + 1) (by omega)
          (fun j h1 h2 => h j (by omega) h2)]
    · rw [countSet_out pm p hp, countSet_out pm' p hp]

theorem countSet_congr (pm pm' : List Nat) (p : Nat)
    (h : ∀ j, p ≤ j → j < VM_LEVEL_0_NPAGES → bitAt pm' j = bitAt pm j) :
    countSet pm' p = countSet pm p :=
  countSet_congr_aux VM_LEVEL_0_NPAGES pm pm' p (by omega) h

theorem findClear_congr_aux : ∀ (d : Nat) (pm pm' : List Nat) (p : Nat),
    VM_LEVEL_0_NPAGES ≤ p + d →
    (∀ j, p ≤ j → j < VM_LEVEL_0_NPAGES → bitAt pm' j = bitAt pm j) →
    findClear pm' p = findClear pm p := by
  intro d
  induction d with
  | zero =>
    intro pm pm' p hd _
    rw [findClear_out pm p (by omega), findClear_out pm' p (by omega)]
  | succ d ih =>
    intro pm pm' p hd h
    by_cases hp : p < VM_LEVEL_0_NPAGES
    · by_cases hb : bitAt pm p = true
      · rw [findClear_step_set pm p hp hb,
          findClear_step_set pm' p hp (by rw [h p (le_refl p) hp]; exact hb),
          ih pm pm' (p + 1) (by omega) (fun j h1 h2 => h j (by omega) h2)]
      · have hb' : bitAt pm p = false := by simpa using hb
        rw [findClear_eq_self pm p hp hb',
          findClear_eq_self pm' p hp (by rw [h p (le_refl p) hp]; exact hb')]
    · rw [findClear_out pm p hp, findClear_out pm' p hp]

theorem findClear_congr (pm pm' : List Nat) (p : Nat)
    (h : ∀ j, p ≤ j → j < VM_LEVEL_0_NPAGES → bitAt pm' j = bitAt pm j) :
    findClear pm' p = findClear pm p :=
  findClear_congr_aux VM_LEVEL_0_NPAGES pm pm' p (by omega) h

theorem findSet_congr_aux : ∀ (d : Nat) (pm pm' : List Nat) (p : Nat),
    VM_LEVEL_0_NPAGES ≤ p + d →
    (∀ j, p ≤ j → j < VM_LEVEL_0_NPAGES → bitAt pm' j = bitAt pm j) →
    findSet pm' p = findSet pm p := by
  intro d
  induction d with
  | zero =>
    intro pm pm' p hd _
    rw [findSet_out pm p (by omega), findSet_out pm' p (by omega)]
  | succ d ih =>
    intro pm pm' p hd h
    by_cases hp : p < VM_LEVEL_0_NPAGES
    · by_cases hb : bitAt pm p = true
      · rw [findSet_eq_self pm p hp hb,
          findSet_eq_self pm' p hp (by rw [h p (le_refl p) hp]; exact hb)]
      · have hb' : bitAt pm p = false := by simpa using hb
        rw [findSet_step_clear pm p hp hb',
          findSet_step_clear pm' p hp (by rw [h p (le_refl p) hp]; exact hb'),
          ih pm pm' (p + 1) (by omega) (fun j h1 h2 => h j (by omega) h2)]
    · rw [findSet_out pm p hp, findSet_out pm' p hp]

theorem findSet_congr (pm pm' : List Nat) (p : Nat)
    (h : ∀ j, p ≤ j → j < VM_LEVEL_0_NPAGES → bitAt pm' j = bitAt pm j) :
    findSet pm' p = findSet pm p :=
  findSet_congr_aux VM_LEVEL_0_NPAGES pm pm' p (by omega) h

theorem zeroRunsAux_fuel : ∀ (f1 : Nat), ∀ (f2 : Nat) (pm : List Nat)
    (p : Nat), p ≤ VM_LEVEL_0_NPAGES →
    VM_LEVEL_0_NPAGES + 1 - p ≤ f1 → VM_LEVEL_0_NPAGES + 1 - p ≤ f2 →
    zeroRunsAux f1 pm p = zeroRunsAux f2 pm p := by
  intro f1
  induction f1 with
  | zero => intro f2 pm p hp h1 h2; omega
  | succ f1 ih =>
    intro f2 pm p hp h1 h2
    cases f2 with
    | zero => omega
    | succ f2 =>
      rw [zeroRunsAux, zeroRunsAux]
      by_cases hlo : findClear pm p < VM_LEVEL_0_NPAGES
      · rw [if_pos hlo, if_pos hlo]
        obtain ⟨c1, c2, c3, c4⟩ := findClear_spec pm p hp
        have hfs := findSet_gt_of_clear pm (findClear pm p) hlo (c3 hlo)
        obtain ⟨s1, s2, s3, s4⟩ :=
          findSet_spec pm (findClear pm p) (le_of_lt hlo)
        congr 1
        exact ih f2 pm (findSet pm (findClear pm p)) s2 (by omega) (by omega)
      · rw [if_neg hlo, if_neg hlo]

theorem zeroRunsFrom_eq (pm : List Nat) (p : Nat)
    (hp : p ≤ VM_LEVEL_0_NPAGES) :
    zeroRunsFrom pm p =
      (if findClear pm p < VM_LEVEL_0_NPAGES then
        (findClear pm p, findSet pm (findClear pm p) - findClear pm p) ::
          zeroRunsFrom pm (findSet pm (findClear pm p))
      else []) := by
  rw [zeroRunsFrom, zeroRunsAux]
  by_cases hlo : findClear pm p < VM_LEVEL_0_NPAGES
  · rw [if_pos hlo, if_pos hlo]
    obtain ⟨c1, c2, c3, c4⟩ := findClear_spec pm p hp
    have hfs := findSet_gt_of_clear pm (findClear pm p) hlo (c3 hlo)
    obtain ⟨s1, s2, s3, s4⟩ := findSet_spec pm (findClear pm p) (le_of_lt hlo)
    exact congrArg (List.cons _)
      (zeroRunsAux_fuel VM_LEVEL_0_NPAGES (VM_LEVEL_0_NPAGES + 1) pm
        (findSet pm (findClear pm p)) s2 (by omega) (by omega))
  · rw [if_neg hlo, if_neg hlo]

theorem zeroRunsFrom_nil (pm : List Nat) (p : Nat)
    (hp : p ≤ VM_LEVEL_0_NPAGES)
    (hlo : ¬ findClear pm p < VM_LEVEL_0_NPAGES) :
    zeroRunsFrom pm p = [] := by
  rw [zeroRunsFrom_eq pm p hp, if_neg hlo]

theorem zeroRunsFrom_congr_findClear (pm : List Nat) (p q : Nat)
    (hp : p ≤ VM_LEVEL_0_NPAGES) (hq : q ≤ VM_LEVEL_0_NPAGES)
    (h : findClear pm p = findClear pm q) :
    zeroRunsFrom pm p = zeroRunsFrom pm q := by
  rw [zeroRunsFrom_eq pm p hp, zeroRunsFrom_eq pm q hq, h]

theorem zeroRunsFrom_congr_aux : ∀ (d : Nat) (pm pm' : List Nat) (p : Nat),
    VM_LEVEL_0_NPAGES + 1 ≤ p + d → p ≤ VM_LEVEL_0_NPAGES →
    (∀ j, p ≤ j → j < VM_LEVEL_0_NPAGES → bitAt pm' j = bitAt pm j) →
    zeroRunsFrom pm' p = zeroRunsFrom pm p := by
  intro d
  induction d with
  | zero => intro pm pm' p hd hp _; omega
  | succ d ih =>
    intro pm pm' p hd hp h
    rw [zeroRunsFrom_eq pm p hp, zeroRunsFrom_eq pm' p hp,
      findClear_congr pm pm' p h]
    by_cases hlo : findClear pm p < VM_LEVEL_0_NPAGES
    · rw [if_pos hlo, if_pos hlo]
      obtain ⟨c1, c2, c3, c4⟩ := findClear_spec pm p hp
      have hfc2 : findSet pm' (findClear pm p) = findSet pm (findClear pm p) :=
        findSet_congr pm pm' (findClear pm p)
          (fun j h1 h2 => h j (by omega) h2)
      rw [hfc2]
      obtain ⟨s1, s2, s3, s4⟩ :=
        findSet_spec pm (findClear pm p) (le_of_lt hlo)
      have hfs := findSet_gt_of_clear pm (findClear pm p) hlo (c3 hlo)
      congr 1
      exact ih pm pm' (findSet pm (findClear pm p)) (by omega) s2
        (fun j h1 h2 => h j (by omega) h2)
    · rw [if_neg hlo, if_neg hlo]

theorem zeroRunsFrom_congr (pm pm' : List Nat) (p : Nat)
    (hp : p ≤ VM_LEVEL_0_NPAGES)
    (h : ∀ j, p ≤ j → j < VM_LEVEL_0_NPAGES → bitAt pm' j = bitAt pm j) :
    zeroRunsFrom pm' p = zeroRunsFrom pm p :=
  zeroRunsFrom_congr_aux (VM_LEVEL_0_NPAGES + 1) pm pm' p (by omega) hp h

theorem zeroRunsFrom_clear_aux : ∀ (d : Nat) (pm : List Nat) (p : Nat),
    VM_LEVEL_0_NPAGES + 1 ≤ p + d → p ≤ VM_LEVEL_0_NPAGES →
    ∀ z ∈ zeroRunsFrom pm p, ∀ j, z.1 ≤ j → j < z.1 + z.2 →
      bitAt pm j = false := by
  intro d
  induction d with
  | zero => intro pm p hd hp; omega
  | succ d ih =>
    intro pm p hd hp z hz j hj1 hj2
    rw [zeroRunsFrom_eq pm p hp] at hz
    by_cases hlo : findClear pm p < VM_LEVEL_0_NPAGES
    · rw [if_pos hlo] at hz
      obtain ⟨c1, c2, c3, c4⟩ := findClear_spec pm p hp
      obtain ⟨s1, s2, s3, s4⟩ :=
        findSet_spec pm (findClear pm p) (le_of_lt hlo)
      have hfs := findSet_gt_of_clear pm (findClear pm p) hlo (c3 hlo)
      rcases List.mem_cons.mp hz with hhead | htail
      · subst hhead
        dsimp only [] at hj1 hj2
        exact s4 j hj1 (by omega)
      · exact ih pm (findSet pm (findClear pm p)) (by omega) s2 z htail j
          hj1 hj2
    · rw [if_neg hlo] at hz
      exact absurd hz (List.not_mem_nil z)

theorem zeroRunsFrom_clear (pm : List Nat) (p : Nat)
    (hp : p ≤ VM_LEVEL_0_NPAGES) :
    ∀ z ∈ zeroRunsFrom pm p, ∀ j, z.1 ≤ j → j < z.1 + z.2 →
      bitAt pm j = false :=
  zeroRunsFrom_clear_aux (VM_LEVEL_0_NPAGES + 1) pm p (by omega) hp

theorem mask_testBit (hi b : Nat) : ((1 <<< hi) - 1).testBit b =
    decide (b < hi) := by
  rw [Nat.shiftLeft_eq, one_mul, Nat.testBit_two_pow_sub_one]

theorem mask_or_lt (hi w : Nat) (hw : w < UL64) (hhi : hi < 64) :
    ((1 <<< hi) - 1) ||| w < UL64 := by
  rw [UL64_eq]
  apply Nat.or_lt_two_pow
  · rw [Nat.shiftLeft_eq, one_mul]
    have h1 : 2 ^ hi ≤ 2 ^ 64 := Nat.pow_le_pow_right (by norm_num) (by omega)
    have h2 : 0 < 2 ^ 64 := by positivity
    omega
  · rw [← UL64_eq]
    exact hw

theorem word_first_clear_zero (w hi : Nat) (hw : w < UL64) (hhi : hi < 64)
    (h : ffsl (cNot64 (((1 <<< hi) - 1) ||| w)) = 0) :
    ∀ b, hi ≤ b → b < 64 → w.testBit b = true := by
  intro b hb1 hb2
  have hy : ((1 <<< hi) - 1) ||| w < UL64 := mask_or_lt hi w hw hhi
  have h0 : cNot64 (((1 <<< hi) - 1) ||| w) = 0 :=
    (ffsl_eq_zero_iff _ (cNot64_lt _)).mp h
  have hbit := congrArg (fun n => n.testBit b) h0
  dsimp only [] at hbit
  rw [cNot64_testBit _ b hy, Nat.zero_testBit, Nat.testBit_or,
    mask_testBit] at hbit
  have hd1 : decide (b < 64) = true := by simp [hb2]
  have hd2 : decide (b < hi) = false := by simp; omega
  rw [hd1, hd2] at hbit
  cases hbb : w.testBit b
  · rw [hbb] at hbit
    simp at hbit
  · rfl

theorem word_first_clear_pos (w hi lo0 : Nat) (hw : w < UL64) (hhi : hi < 64)
    (h : ffsl (cNot64 (((1 <<< hi) - 1) ||| w)) = lo0 + 1) :
    hi ≤ lo0 ∧ lo0 < 64 ∧ w.testBit lo0 = false ∧
      ∀ b, hi ≤ b → b < lo0 → w.testBit b = true := by
  have hy : ((1 <<< hi) - 1) ||| w < UL64 := mask_or_lt hi w hw hhi
  obtain ⟨hlt, hset, hbelow⟩ := ffsl_pos_spec _ lo0 (cNot64_lt _) h
  rw [cNot64_testBit _ lo0 hy, Nat.testBit_or, mask_testBit] at hset
  have hd1 : decide (lo0 < 64) = true := by simp [hlt]
  rw [hd1] at hset
  have hmain : decide (lo0 < hi) = false ∧ w.testBit lo0 = false := by
    by_cases hd : lo0 < hi
    · exfalso
      have : decide (lo0 < hi) = true := by simp [hd]
      rw [this] at hset
      simp at hset
    · constructor
      · simp [hd]
      · have : decide (lo0 < hi) = false := by simp [hd]
        rw [this] at hset
        cases hb : w.testBit lo0
        · rfl
        · rw [hb] at hset
          simp at hset
  have hge : hi ≤ lo0 := by
    by_cases hx : lo0 < hi
    · have h1 := hmain.1
      simp [hx] at h1
    · omega
  refine ⟨hge, hlt, hmain.2, ?_⟩
  intro b hb1 hb2
  have hbb := hbelow b hb2
  rw [cNot64_testBit _ b hy, Nat.testBit_or, mask_testBit] at hbb
  have hd1 : decide (b < 64) = true := by simp; omega
  have hd2 : decide (b < hi) = false := by simp; omega
  rw [hd1, hd2] at hbb
  cases hc : w.testBit b
  · rw [hc] at hbb
    simp at hbb
  · rfl

theorem word_all_ones_of_cNot_ffsl_zero (w : Nat) (hw : w < UL64)
    (h : ffsl (cNot64 w) = 0) : ∀ b, b < 64 → w.testBit b = true := by
  intro b hb
  have hrw : ((1 <<< 0) - 1) ||| w = w := by simp
  have h' : ffsl (cNot64 (((1 <<< 0) - 1) ||| w)) = 0 := by
    rw [hrw]
    exact h
  exact word_first_clear_zero w 0 hw (by norm_num) h' b (Nat.zero_le b) hb

theorem word_first_clear_pos0 (w lo0 : Nat) (hw : w < UL64)
    (h : ffsl (cNot64 w) = lo0 + 1) :
    lo0 < 64 ∧ w.testBit lo0 = false ∧
      ∀ b, b < lo0 → w.testBit b = true := by
  have hrw : ((1 <<< 0) - 1) ||| w = w := by simp
  have h' : ffsl (cNot64 (((1 <<< 0) - 1) ||| w)) = lo0 + 1 := by
    rw [hrw]
    exact h
  obtain ⟨g1, g2, g3, g4⟩ := word_first_clear_pos w 0 lo0 hw (by norm_num) h'
  exact ⟨g2, g3, fun b hb => g4 b (Nat.zero_le b) hb⟩

theorem break_skip_spec : ∀ (fuel : Nat) (pm : List Nat) (pc i : Nat),
    pm.length = NPOPMAP → (∀ w ∈ pm, w < UL64) → i < NPOPMAP →
    NPOPMAP - i ≤ fuel →
    ∃ pm2 pc2 i2 lo2,
      vm_reserv_break_skip fuel pm pc i = (pm2, pc2, i2, lo2) ∧
      i < i2 ∧ i2 ≤ NPOPMAP ∧
      pm2.length = NPOPMAP ∧ (∀ w ∈ pm2, w < UL64) ∧
      (∀ q, q ≤ i ∨ i2 ≤ q → pm2.getD q 0 = pm.getD q 0) ∧
      (∀ q, i < q → q < i2 → pm2.getD q 0 = 0) ∧
      (∀ q, i < q → q < i2 → ∀ b, b < 64 →
        (pm.getD q 0).testBit b = true) ∧
      pc2 = pc - NBPOPMAP * (i2 - (i + 1)) ∧
      (i2 < NPOPMAP → lo2 = ffsl (cNot64 (pm.getD i2 0)) ∧ ¬ (lo2 = 0)) ∧
      (i2 = NPOPMAP → lo2 = 0) := by
  intro fuel
  induction fuel with
  | zero =>
    intro pm pc i hlen hw hi hfuel
    rw [NPOPMAP_eq] at hi hfuel
    omega
  | succ fuel ih =>
    intro pm pc i hlen hw hi hfuel
    rw [vm_reserv_break_skip]
    by_cases hnext : i + 1 < NPOPMAP
    · rw [if_pos hnext]
      by_cases hzero : ffsl (cNot64 (pm.getD (i + 1) 0)) = 0
      · rw [if_pos hzero]
        have hones : ∀ b, b < 64 → (pm.getD (i + 1) 0).testBit b = true :=
          word_all_ones_of_cNot_ffsl_zero _ (list_getD_lt pm (i + 1) hw) hzero
        obtain ⟨pm2, pc2, i2, lo2, heq, g1, g2, g3, g4, g5, g6, g7, g8, g9,
            g10⟩ := ih (pm.set (i + 1) 0) (pc - NBPOPMAP) (i + 1)
          (by rw [List.length_set]; exact hlen)
          (words_lt_set pm (i + 1) 0 hw UL64_pos) hnext (by omega)
        refine ⟨pm2, pc2, i2, lo2, heq, by omega, g2, g3, g4, ?_, ?_, ?_,
          ?_, ?_, g10⟩
        · intro q hq
          rcases hq with hq | hq
          · rw [g5 q (Or.inl (by omega)),
              list_getD_set_ne pm (i + 1) q 0 (by omega)]
          · rw [g5 q (Or.inr hq),
              list_getD_set_ne pm (i + 1) q 0 (by omega)]
        · intro q hq1 hq2
          rcases Nat.eq_or_lt_of_le hq1 with h | h
          · rw [g5 q (Or.inl (by omega)), ← h,
              list_getD_set pm (i + 1) 0 (by rw [hlen]; exact hnext)]
          · exact g6 q h hq2
        · intro q hq1 hq2 b hb
          rcases Nat.eq_or_lt_of_le hq1 with h | h
          · rw [← h]
            exact hones b hb
          · have := g7 q h hq2 b hb
            rw [list_getD_set_ne pm (i + 1) q 0 (by omega)] at this
            exact this
        · rw [g8, Nat.sub_sub]
          congr 1
          have : i2 - (i + 1 + 1) + 1 = i2 - (i + 1) := by omega
          rw [NBPOPMAP_eq]
          omega
        · intro hi2
          obtain ⟨h1, h2⟩ := g9 hi2
          refine ⟨?_, h2⟩
          rw [h1, list_getD_set_ne pm (i + 1) i2 0 (by omega)]
      · rw [if_neg hzero]
        refine ⟨pm, pc, i + 1, ffsl (cNot64 (pm.getD (i + 1) 0)), rfl,
          by omega, by omega, hlen, hw, fun q _ => rfl, ?_, ?_, ?_, ?_, ?_⟩
        · intro q h1 h2; omega
        · intro q h1 h2; omega
        · rw [NBPOPMAP_eq]
          omega
        · intro _
          exact ⟨rfl, hzero⟩
        · intro h
          omega
    · rw [if_neg hnext]
      refine ⟨pm, pc, i + 1, 0, rfl, by omega, by omega, hlen, hw,
        fun q _ => rfl, ?_, ?_, ?_, ?_, fun _ => rfl⟩
      · intro q h1 h2; omega
      · intro q h1 h2; omega
      · rw [NBPOPMAP_eq]
        omega
      · intro h
        omega

theorem break_findone_spec : ∀ (fuel : Nat) (pm : List Nat) (i : Nat),
    pm.length = NPOPMAP → (∀ w ∈ pm, w < UL64) → i < NPOPMAP →
    NPOPMAP - i ≤ fuel →
    vm_reserv_break_findone fuel pm i =
      (findSet pm (NBPOPMAP * i) / NBPOPMAP,
       findSet pm (NBPOPMAP * i) % NBPOPMAP) := by
  intro fuel
  induction fuel with
  | zero =>
    intro pm i hlen hw hi hfuel
    rw [NPOPMAP_eq] at hi hfuel
    omega
  | succ fuel ih =>
    intro pm i hlen hw hi hfuel
    rw [vm_reserv_break_findone]
    by_cases hzero : ffsl (pm.getD i 0) = 0
    · rw [if_pos hzero]
      have hwz : pm.getD i 0 = 0 :=
        (ffsl_eq_zero_iff _ (list_getD_lt pm i hw)).mp hzero
      have hclear : ∀ j, NBPOPMAP * i ≤ j → j < NBPOPMAP * i + NBPOPMAP →
          bitAt pm j = false := by
        intro j h1 h2
        have hb : j - NBPOPMAP * i < NBPOPMAP := by omega
        have : j = NBPOPMAP * i + (j - NBPOPMAP * i) := by omega
        rw [this, bitAt_eq pm i _ hb, hwz]
        exact Nat.zero_testBit _
      have hstep : findSet pm (NBPOPMAP * i) =
          findSet pm (NBPOPMAP * (i + 1)) := by
        have harg : NBPOPMAP * (i + 1) = NBPOPMAP * i + NBPOPMAP := by ring
        rw [harg]
        exact findSet_of_all_clear NBPOPMAP pm (NBPOPMAP * i)
          (by rw [NBPOPMAP_eq, NPAGES_eq]; rw [NPOPMAP_eq] at hi; omega)
          hclear
      by_cases hnext : i + 1 < NPOPMAP
      · rw [if_pos hnext, hstep]
        exact ih pm (i + 1) hlen hw hnext (by omega)
      · rw [if_neg hnext]
        have hi1 : i + 1 = NPOPMAP := by omega
        rw [hstep, hi1]
        have : ¬ NBPOPMAP * NPOPMAP < VM_LEVEL_0_NPAGES := by
          rw [NBPOPMAP_eq, NPOPMAP_eq, NPAGES_eq]
          omega
        rw [findSet_out pm _ this]
        decide
    · rw [if_neg hzero]
      obtain ⟨h0, hval⟩ : ∃ h0, ffsl (pm.getD i 0) = h0 + 1 := by
        cases hv : ffsl (pm.getD i 0) with
        | zero => exact absurd hv hzero
        | succ h0 => exact ⟨h0, rfl⟩
      obtain ⟨hlt, hset, hbelow⟩ :=
        ffsl_pos_spec _ h0 (list_getD_lt pm i hw) hval
      have hfs : findSet pm (NBPOPMAP * i) = NBPOPMAP * i + h0 := by
        have hstep := findSet_of_all_clear h0 pm (NBPOPMAP * i)
          (by rw [NBPOPMAP_eq, NPAGES_eq]; rw [NPOPMAP_eq] at hi; omega)
          (by
            intro j h1 h2
            have hb : j - NBPOPMAP * i < NBPOPMAP := by
              rw [NBPOPMAP_eq] at h1 h2 ⊢
              omega
            have hj : j = NBPOPMAP * i + (j - NBPOPMAP * i) := by omega
            rw [hj, bitAt_eq pm i _ hb]
            exact hbelow _ (by omega))
        rw [hstep]
        apply findSet_eq_self
        · rw [NBPOPMAP_eq, NPAGES_eq]
          rw [NPOPMAP_eq] at hi
          omega
        · rw [bitAt_eq pm i h0 (by rw [NBPOPMAP_eq]; omega)]
          exact hset
      rw [hval, hfs]
      have hd : (NBPOPMAP * i + h0) / NBPOPMAP = i := by
        rw [NBPOPMAP_eq]
        omega
      have hm : (NBPOPMAP * i + h0) % NBPOPMAP = h0 := by
        rw [NBPOPMAP_eq]
        omega
      rw [hd, hm]
      simp

theorem mask_lt_UL64 (lo0 : Nat) (h : lo0 < 64) : (1 <<< lo0) - 1 < UL64 := by
  rw [Nat.shiftLeft_eq, one_mul, UL64_eq]
  have h1 : 2 ^ lo0 ≤ 2 ^ 64 := Nat.pow_le_pow_right (by norm_num) (by omega)
  have h2 : 0 < 2 ^ 64 := by positivity
  omega

theorem break_run_spec (pm : List Nat) (pc i hi lo0 : Nat)
    (hlen : pm.length = NPOPMAP) (hw : ∀ w ∈ pm, w < UL64)
    (hi8 : i < NPOPMAP) (hhi : hi < NBPOPMAP) (hlo : lo0 < NBPOPMAP)
    (hhle : hi ≤ lo0)
    (hinv : ∀ j, j < NBPOPMAP * i + hi → bitAt pm j = false)
    (hset : ∀ b, hi ≤ b → b < lo0 → (pm.getD i 0).testBit b = true)
    (hclr : (pm.getD i 0).testBit lo0 = false) :
    ∃ pm1,
      vm_reserv_break_run pm pc i hi (lo0 + 1) =
        (pm1, pc - (lo0 - hi),
         findSet pm (NBPOPMAP * i + lo0) / NBPOPMAP,
         findSet pm (NBPOPMAP * i + lo0) % NBPOPMAP,
         (NBPOPMAP * i + lo0,
          findSet pm (NBPOPMAP * i + lo0) - (NBPOPMAP * i + lo0))) ∧
      pm1.length = NPOPMAP ∧ (∀ w ∈ pm1, w < UL64) ∧
      (∀ j, NBPOPMAP * i + lo0 ≤ j → bitAt pm1 j = bitAt pm j) ∧
      (∀ j, j < NBPOPMAP * i + lo0 → bitAt pm1 j = false) := by
  have hbzlt : NBPOPMAP * i + lo0 < VM_LEVEL_0_NPAGES := by
    rw [NBPOPMAP_eq] at hlo ⊢
    rw [NPOPMAP_eq] at hi8
    rw [NPAGES_eq]
    omega
  by_cases hpos : 0 < lo0
  · have hmlt := mask_lt_UL64 lo0 (by rw [NBPOPMAP_eq] at hlo; exact hlo)
    have hveq : ∀ b, b < 64 →
        (pm.getD i 0 &&& cNot64 ((1 <<< lo0) - 1)).testBit b =
          ((pm.getD i 0).testBit b && ! decide (b < lo0)) := by
      intro b hb
      rw [Nat.testBit_and, cNot64_testBit _ b hmlt, mask_testBit]
      have hd : decide (b < 64) = true := by simp [hb]
      rw [hd, Bool.true_and]
    have hge : ∀ j, NBPOPMAP * i + lo0 ≤ j →
        bitAt (pm.set i (pm.getD i 0 &&& cNot64 ((1 <<< lo0) - 1))) j =
          bitAt pm j := by
      intro j hj
      by_cases hq : j / NBPOPMAP = i
      · have hdm := Nat.div_add_mod j NBPOPMAP
        rw [hq] at hdm
        have hb64 : j % NBPOPMAP < 64 := by
          rw [NBPOPMAP_eq]
          omega
        have hblo : ¬ (j % NBPOPMAP < lo0) := by omega
        rw [bitAt_set_word_eq pm i _ j hq (by rw [hlen]; exact hi8),
          bitAt_decompose, hq, hveq _ hb64]
        have hd : decide (j % NBPOPMAP < lo0) = false := by simp [hblo]
        rw [hd]
        cases (pm.getD i 0).testBit (j % NBPOPMAP) <;> rfl
      · rw [bitAt_set_word_ne pm i _ j hq]
    have hltp : ∀ j, j < NBPOPMAP * i + lo0 →
        bitAt (pm.set i (pm.getD i 0 &&& cNot64 ((1 <<< lo0) - 1))) j =
          false := by
      intro j hj
      by_cases hq : j / NBPOPMAP = i
      · have hdm := Nat.div_add_mod j NBPOPMAP
        rw [hq] at hdm
        have hb64 : j % NBPOPMAP < 64 := by
          rw [NBPOPMAP_eq]
          omega
        have hblo : j % NBPOPMAP < lo0 := by omega
        rw [bitAt_set_word_eq pm i _ j hq (by rw [hlen]; exact hi8),
          hveq _ hb64]
        have hd : decide (j % NBPOPMAP < lo0) = true := by simp [hblo]
        rw [hd]
        cases (pm.getD i 0).testBit (j % NBPOPMAP) <;> rfl
      · have hqlt : j / NBPOPMAP < i := by
          have hdm := Nat.div_add_mod j NBPOPMAP
          have hmod : j % NBPOPMAP < NBPOPMAP := by
            rw [NBPOPMAP_eq]
            omega
          have hlo' : lo0 < 64 := by rw [NBPOPMAP_eq] at hlo; exact hlo
          rw [NBPOPMAP_eq] at hdm hmod hj hq ⊢
          omega
        rw [bitAt_set_word_ne pm i _ j hq]
        apply hinv
        have hdm := Nat.div_add_mod j NBPOPMAP
        have hmod : j % NBPOPMAP < NBPOPMAP := by
          rw [NBPOPMAP_eq]
          omega
        rw [NBPOPMAP_eq] at hdm hmod hqlt ⊢
        omega
    have hlen1 : (pm.set i (pm.getD i 0 &&& cNot64 ((1 <<< lo0) - 1))).length
        = NPOPMAP := by
      rw [List.length_set]
      exact hlen
    have hvlt : pm.getD i 0 &&& cNot64 ((1 <<< lo0) - 1) < UL64 := by
      rw [UL64_eq]
      refine Nat.and_lt_two_pow _ ?_
      rw [← UL64_eq]
      exact cNot64_lt _
    have hw1 : ∀ w ∈ pm.set i (pm.getD i 0 &&& cNot64 ((1 <<< lo0) - 1)),
        w < UL64 :=
      words_lt_set pm i _ hw hvlt
    have hfone := break_findone_spec NPOPMAP
      (pm.set i (pm.getD i 0 &&& cNot64 ((1 <<< lo0) - 1))) i hlen1 hw1 hi8
      (by omega)
    have hfs1 : findSet (pm.set i (pm.getD i 0 &&& cNot64 ((1 <<< lo0) - 1)))
        (NBPOPMAP * i) = findSet
          (pm.set i (pm.getD i 0 &&& cNot64 ((1 <<< lo0) - 1)))
          (NBPOPMAP * i + lo0) := by
      apply findSet_of_all_clear lo0 _ (NBPOPMAP * i) (le_of_lt hbzlt)
      intro j h1 h2
      exact hltp j h2
    have hfs2 : findSet (pm.set i (pm.getD i 0 &&& cNot64 ((1 <<< lo0) - 1)))
        (NBPOPMAP * i + lo0) = findSet pm (NBPOPMAP * i + lo0) :=
      findSet_congr pm _ (NBPOPMAP * i + lo0) (fun j h1 _ => hge j h1)
    refine ⟨pm.set i (pm.getD i 0 &&& cNot64 ((1 <<< lo0) - 1)), ?_, hlen1,
      hw1, hge, hltp⟩
    unfold vm_reserv_break_run
    dsimp only []
    simp only [Nat.add_sub_cancel]
    rw [if_pos hpos, if_pos hpos, hfone, hfs1, hfs2]
    have hdm := Nat.div_add_mod (findSet pm (NBPOPMAP * i + lo0)) NBPOPMAP
    rw [hdm]
  · have hlo0 : lo0 = 0 := by omega
    have hhi0 : hi = 0 := by omega
    subst hlo0
    subst hhi0
    have hfone := break_findone_spec NPOPMAP pm i hlen hw hi8 (by omega)
    refine ⟨pm, ?_, hlen, hw, fun j _ => rfl, ?_⟩
    · unfold vm_reserv_break_run
      dsimp only []
      simp only [Nat.add_sub_cancel]
      rw [if_neg hpos, if_neg hpos, hfone]
      have hdm := Nat.div_add_mod (findSet pm (NBPOPMAP * i + 0)) NBPOPMAP
      have h0 : NBPOPMAP * i + 0 = NBPOPMAP * i := by omega
      rw [h0] at hdm ⊢
      rw [hdm]
      simp
    · intro j hj
      apply hinv
      omega

theorem div64_lt8 (fs : Nat) (h2 : fs ≤ VM_LEVEL_0_NPAGES)
    (h1 : fs / NBPOPMAP < NPOPMAP) : fs < VM_LEVEL_0_NPAGES := by
  rw [NBPOPMAP_eq, NPOPMAP_eq] at h1
  rw [NPAGES_eq] at h2 ⊢
  omega

theorem div64_ge8 (fs : Nat) (h2 : fs ≤ VM_LEVEL_0_NPAGES)
    (h1 : ¬ fs / NBPOPMAP < NPOPMAP) : fs = VM_LEVEL_0_NPAGES := by
  rw [NBPOPMAP_eq, NPOPMAP_eq] at h1
  rw [NPAGES_eq] at h2 ⊢
  omega

theorem break_loop_from_run (fuel : Nat) (pm2 : List Nat)
    (pc2 i2 hi2 lo0 : Nat) (freed : List (Nat × Nat))
    (hlen : pm2.length = NPOPMAP) (hw : ∀ w ∈ pm2, w < UL64)
    (hi2lt : i2 < NPOPMAP) (hhi2 : hi2 < NBPOPMAP) (hlo0 : lo0 < NBPOPMAP)
    (hhle : hi2 ≤ lo0)
    (hinv : ∀ j, j < NBPOPMAP * i2 + hi2 → bitAt pm2 j = false)
    (hset : ∀ b, hi2 ≤ b → b < lo0 → (pm2.getD i2 0).testBit b = true)
    (hclr : (pm2.getD i2 0).testBit lo0 = false)
    (hfuel : VM_LEVEL_0_NPAGES - (NBPOPMAP * i2 + hi2) < fuel + 1)
    (ihl : ∀ (pm : List Nat) (pc i hi : Nat) (freed : List (Nat × Nat)),
      pm.length = NPOPMAP → (∀ w ∈ pm, w < UL64) → i < NPOPMAP →
      hi < NBPOPMAP → (∀ j, j < NBPOPMAP * i + hi → bitAt pm j = false) →
      VM_LEVEL_0_NPAGES - (NBPOPMAP * i + hi) < fuel →
      vm_reserv_break_loop fuel pm pc i hi freed =
        (List.replicate NPOPMAP 0, pc - countSet pm (NBPOPMAP * i + hi),
         freed ++ zeroRunsFrom pm (NBPOPMAP * i + hi))) :
    ∃ pm3,
      vm_reserv_break_run pm2 pc2 i2 hi2 (lo0 + 1) =
        (pm3, pc2 - (lo0 - hi2),
         findSet pm2 (NBPOPMAP * i2 + lo0) / NBPOPMAP,
         findSet pm2 (NBPOPMAP * i2 + lo0) % NBPOPMAP,
         (NBPOPMAP * i2 + lo0,
          findSet pm2 (NBPOPMAP * i2 + lo0) - (NBPOPMAP * i2 + lo0))) ∧
      (if findSet pm2 (NBPOPMAP * i2 + lo0) / NBPOPMAP < NPOPMAP then
        vm_reserv_break_loop fuel pm3 (pc2 - (lo0 - hi2))
          (findSet pm2 (NBPOPMAP * i2 + lo0) / NBPOPMAP)
          (findSet pm2 (NBPOPMAP * i2 + lo0) % NBPOPMAP)
          (freed ++ [(NBPOPMAP * i2 + lo0,
            findSet pm2 (NBPOPMAP * i2 + lo0) - (NBPOPMAP * i2 + lo0))])
      else (pm3, pc2 - (lo0 - hi2),
        freed ++ [(NBPOPMAP * i2 + lo0,
          findSet pm2 (NBPOPMAP * i2 + lo0) - (NBPOPMAP * i2 + lo0))])) =
      (List.replicate NPOPMAP 0, pc2 - countSet pm2 (NBPOPMAP * i2 + hi2),
       freed ++ zeroRunsFrom pm2 (NBPOPMAP * i2 + hi2)) := by
  obtain ⟨pm3, heq, hlen3, hw3, hge3, hlt3⟩ :=
    break_run_spec pm2 pc2 i2 hi2 lo0 hlen hw hi2lt hhi2 hlo0 hhle hinv
      hset hclr
  have hbzlt : NBPOPMAP * i2 + lo0 < VM_LEVEL_0_NPAGES := by
    rw [NBPOPMAP_eq] at hlo0 ⊢
    rw [NPOPMAP_eq] at hi2lt
    rw [NPAGES_eq]
    omega
  have hmid : ∀ j, NBPOPMAP * i2 + hi2 ≤ j → j < NBPOPMAP * i2 + lo0 →
      bitAt pm2 j = true := by
    intro j h1 h2
    have hb : j - NBPOPMAP * i2 < NBPOPMAP := by
      rw [NBPOPMAP_eq] at h2 hlo0 ⊢
      omega
    have hj : j = NBPOPMAP * i2 + (j - NBPOPMAP * i2) := by omega
    rw [hj, bitAt_eq pm2 i2 _ hb]
    exact hset _ (by omega) (by omega)
  have hbzclr : bitAt pm2 (NBPOPMAP * i2 + lo0) = false := by
    rw [bitAt_eq pm2 i2 lo0 hlo0]
    exact hclr
  have hfc : findClear pm2 (NBPOPMAP * i2 + hi2) = NBPOPMAP * i2 + lo0 := by
    have h1 := findClear_of_all_set (lo0 - hi2) pm2 (NBPOPMAP * i2 + hi2)
      (by omega) (fun j ha hb => hmid j ha (by omega))
    have h2 : NBPOPMAP * i2 + hi2 + (lo0 - hi2) = NBPOPMAP * i2 + lo0 := by
      omega
    rw [h2] at h1
    rw [h1]
    exact findClear_eq_self pm2 _ hbzlt hbzclr
  obtain ⟨s1, s2, s3, s4⟩ :=
    findSet_spec pm2 (NBPOPMAP * i2 + lo0) (le_of_lt hbzlt)
  have hfsgt := findSet_gt_of_clear pm2 (NBPOPMAP * i2 + lo0) hbzlt hbzclr
  have hcs : countSet pm2 (NBPOPMAP * i2 + hi2) =
      (lo0 - hi2) + countSet pm2 (NBPOPMAP * i2 + lo0) := by
    have h1 := countSet_of_all_set (lo0 - hi2) pm2 (NBPOPMAP * i2 + hi2)
      (by omega) (fun j ha hb => hmid j ha (by omega))
    have h2 : NBPOPMAP * i2 + hi2 + (lo0 - hi2) = NBPOPMAP * i2 + lo0 := by
      omega
    rw [h2] at h1
    exact h1
  have hcs2 : countSet pm2 (NBPOPMAP * i2 + lo0) =
      countSet pm2 (findSet pm2 (NBPOPMAP * i2 + lo0)) := by
    have h1 := countSet_of_all_clear
      (findSet pm2 (NBPOPMAP * i2 + lo0) - (NBPOPMAP * i2 + lo0)) pm2
      (NBPOPMAP * i2 + lo0) (by omega) (fun j ha hb => s4 j ha (by omega))
    have h2 : NBPOPMAP * i2 + lo0 +
        (findSet pm2 (NBPOPMAP * i2 + lo0) - (NBPOPMAP * i2 + lo0)) =
        findSet pm2 (NBPOPMAP * i2 + lo0) := by omega
    rw [h2] at h1
    exact h1
  have hzr : zeroRunsFrom pm2 (NBPOPMAP * i2 + hi2) =
      (NBPOPMAP * i2 + lo0,
       findSet pm2 (NBPOPMAP * i2 + lo0) - (NBPOPMAP * i2 + lo0)) ::
        zeroRunsFrom pm2 (findSet pm2 (NBPOPMAP * i2 + lo0)) := by
    rw [zeroRunsFrom_eq pm2 (NBPOPMAP * i2 + hi2) (by omega), hfc,
      if_pos hbzlt]
  refine ⟨pm3, heq, ?_⟩
  by_cases hN : findSet pm2 (NBPOPMAP * i2 + lo0) / NBPOPMAP < NPOPMAP
  · rw [if_pos hN]
    have hfs512 : findSet pm2 (NBPOPMAP * i2 + lo0) < VM_LEVEL_0_NPAGES :=
      div64_lt8 _ s2 hN
    have hdm := Nat.div_add_mod (findSet pm2 (NBPOPMAP * i2 + lo0)) NBPOPMAP
    have hinv3 : ∀ j, j < NBPOPMAP *
        (findSet pm2 (NBPOPMAP * i2 + lo0) / NBPOPMAP) +
        findSet pm2 (NBPOPMAP * i2 + lo0) % NBPOPMAP →
        bitAt pm3 j = false := by
      intro j hj
      rw [hdm] at hj
      by_cases hjb : j < NBPOPMAP * i2 + lo0
      · exact hlt3 j hjb
      · rw [hge3 j (by omega)]
        exact s4 j (by omega) hj
    rw [ihl pm3 (pc2 - (lo0 - hi2)) _ _ _ hlen3 hw3 hN
      (by rw [NBPOPMAP_eq]; exact Nat.mod_lt _ (by norm_num)) hinv3
      (by rw [hdm]; omega)]
    rw [hdm]
    have hcc : countSet pm3 (findSet pm2 (NBPOPMAP * i2 + lo0)) =
        countSet pm2 (findSet pm2 (NBPOPMAP * i2 + lo0)) :=
      countSet_congr pm2 pm3 _ (fun j h1 _ => hge3 j (by omega))
    have hzz : zeroRunsFrom pm3 (findSet pm2 (NBPOPMAP * i2 + lo0)) =
        zeroRunsFrom pm2 (findSet pm2 (NBPOPMAP * i2 + lo0)) :=
      zeroRunsFrom_congr pm2 pm3 _ s2 (fun j h1 _ => hge3 j (by omega))
    rw [hcc, hzz, hcs, hcs2, hzr]
    simp [Nat.sub_sub]
  · rw [if_neg hN]
    have hfs512 : findSet pm2 (NBPOPMAP * i2 + lo0) = VM_LEVEL_0_NPAGES :=
      div64_ge8 _ s2 hN
    have hrep : pm3 = List.replicate NPOPMAP 0 := by
      apply pm_all_false_eq_replicate pm3 hlen3 hw3
      intro j hj
      by_cases hjb : j < NBPOPMAP * i2 + lo0
      · exact hlt3 j hjb
      · rw [hge3 j (by omega)]
        exact s4 j (by omega) (by rw [hfs512]; exact hj)
    have hc0 : countSet pm2 (findSet pm2 (NBPOPMAP * i2 + lo0)) = 0 := by
      rw [hfs512]
      exact countSet_out pm2 _ (by omega)
    have hz0 : zeroRunsFrom pm2 (findSet pm2 (NBPOPMAP * i2 + lo0)) = [] := by
      rw [hfs512]
      apply zeroRunsFrom_nil pm2 _ (le_refl _)
      rw [findClear_out pm2 _ (by omega)]
      omega
    rw [hrep, hcs, hcs2, hc0, hzr, hz0]
    rw [List.append_cons]
    simp

theorem break_loop_spec : ∀ (fuel : Nat) (pm : List Nat) (pc i hi : Nat)
    (freed : List (Nat × Nat)),
    pm.length = NPOPMAP → (∀ w ∈ pm, w < UL64) →
    i < NPOPMAP → hi < NBPOPMAP →
    (∀ j, j < NBPOPMAP * i + hi → bitAt pm j = false) →
    VM_LEVEL_0_NPAGES - (NBPOPMAP * i + hi) < fuel →
    vm_reserv_break_loop fuel pm pc i hi freed =
      (List.replicate NPOPMAP 0, pc - countSet pm (NBPOPMAP * i + hi),
       freed ++ zeroRunsFrom pm (NBPOPMAP * i + hi)) := by
  intro fuel
  induction fuel with
  | zero =>
    intro pm pc i hi freed hlen hw hi8 hhi hinv hfuel
    rw [NBPOPMAP_eq] at hhi
    rw [NPOPMAP_eq] at hi8
    rw [NPAGES_eq, NBPOPMAP_eq] at hfuel
    omega
  | succ fuel ih =>
    intro pm pc i hi freed hlen hw hi8 hhi hinv hfuel
    rw [vm_reserv_break_loop]
    by_cases hz : ffsl (cNot64 (((1 <<< hi) - 1) ||| pm.getD i 0)) = 0
    · rw [if_pos hz]
      have hAllSet : ∀ b, hi ≤ b → b < 64 → (pm.getD i 0).testBit b = true :=
        word_first_clear_zero _ hi (list_getD_lt pm i hw)
          (by rw [NBPOPMAP_eq] at hhi; exact hhi) hz
      obtain ⟨pm2, pc2, i2, lo2, hskip, g1, g2, g3, g4, g5, g6, g7, g8, g9,
          g10⟩ := break_skip_spec NPOPMAP (pm.set i 0) (pc - (NBPOPMAP - hi))
        i (by rw [List.length_set]; exact hlen)
        (words_lt_set pm i 0 hw UL64_pos) hi8 (by omega)
      rw [hskip]
      dsimp only []
      have hWordSet : ∀ j, NBPOPMAP * i + hi ≤ j → j < NBPOPMAP * (i + 1) →
          bitAt pm j = true := by
        intro j h1 h2
        have hb : j - NBPOPMAP * i < NBPOPMAP := by
          have : NBPOPMAP * (i + 1) = NBPOPMAP * i + NBPOPMAP := by ring
          rw [this] at h2
          omega
        have hj : j = NBPOPMAP * i + (j - NBPOPMAP * i) := by omega
        rw [hj, bitAt_eq pm i _ hb]
        exact hAllSet _ (by omega) (by rw [NBPOPMAP_eq] at hb; exact hb)
      have hSkipSet : ∀ j, NBPOPMAP * (i + 1) ≤ j → j < NBPOPMAP * i2 →
          bitAt pm j = true := by
        intro j h1 h2
        have hdm := Nat.div_add_mod j NBPOPMAP
        have hmod : j % NBPOPMAP < NBPOPMAP := by
          rw [NBPOPMAP_eq]
          omega
        have hqlo : i < j / NBPOPMAP := by
          rw [NBPOPMAP_eq] at hdm hmod h1 ⊢
          omega
        have hqhi : j / NBPOPMAP < i2 := by
          rw [NBPOPMAP_eq] at hdm hmod h2 ⊢
          omega
        rw [bitAt_decompose]
        have hmod64 : j % NBPOPMAP < 64 := by
          rw [NBPOPMAP_eq] at hmod
          exact hmod
        have hg := g7 _ hqlo hqhi (j % NBPOPMAP) hmod64
        rw [list_getD_set_ne pm i _ 0 (by omega)] at hg
        exact hg
      have hPref : ∀ j, NBPOPMAP * i + hi ≤ j → j < NBPOPMAP * i2 →
          bitAt pm j = true := by
        intro j h1 h2
        by_cases hc : j < NBPOPMAP * (i + 1)
        · exact hWordSet j h1 hc
        · exact hSkipSet j (le_of_not_lt hc) h2
      have hple : NBPOPMAP * i + hi ≤ NBPOPMAP * i2 := by
        have : NBPOPMAP * (i + 1) = NBPOPMAP * i + NBPOPMAP := by ring
        have h2 : NBPOPMAP * (i + 1) ≤ NBPOPMAP * i2 :=
          Nat.mul_le_mul_left _ g1
        omega
      have hi2le : NBPOPMAP * i2 ≤ VM_LEVEL_0_NPAGES := by
        have := Nat.mul_le_mul_left NBPOPMAP g2
        rw [NBPOPMAP_eq, NPOPMAP_eq] at this
        rw [NPAGES_eq]
        rw [NBPOPMAP_eq]
        omega
      have hfcPref : findClear pm (NBPOPMAP * i + hi) =
          findClear pm (NBPOPMAP * i2) := by
        have h1 := findClear_of_all_set (NBPOPMAP * i2 - (NBPOPMAP * i + hi))
          pm (NBPOPMAP * i + hi) (by omega)
          (fun j ha hb => hPref j ha (by omega))
        have h2 : NBPOPMAP * i + hi + (NBPOPMAP * i2 - (NBPOPMAP * i + hi)) =
            NBPOPMAP * i2 := by omega
        rw [h2] at h1
        exact h1
      have hcsPref : countSet pm (NBPOPMAP * i + hi) =
          (NBPOPMAP * i2 - (NBPOPMAP * i + hi)) +
            countSet pm (NBPOPMAP * i2) := by
        have h1 := countSet_of_all_set (NBPOPMAP * i2 - (NBPOPMAP * i + hi))
          pm (NBPOPMAP * i + hi) (by omega)
          (fun j ha hb => hPref j ha (by omega))
        have h2 : NBPOPMAP * i + hi + (NBPOPMAP * i2 - (NBPOPMAP * i + hi)) =
            NBPOPMAP * i2 := by omega
        rw [h2] at h1
        exact h1
      have hBitsGe : ∀ j, NBPOPMAP * i2 ≤ j → bitAt pm2 j = bitAt pm j := by
        intro j hj
        have hq : i2 ≤ j / NBPOPMAP := by
          rw [NBPOPMAP_eq] at hj ⊢
          omega
        rw [bitAt_decompose, bitAt_decompose, g5 _ (Or.inr hq),
          list_getD_set_ne pm i _ 0 (by omega)]
      have hBitsLt : ∀ j, j < NBPOPMAP * i2 → bitAt pm2 j = false := by
        intro j hj
        have hdm := Nat.div_add_mod j NBPOPMAP
        have hmod : j % NBPOPMAP < NBPOPMAP := by
          rw [NBPOPMAP_eq]
          omega
        have hqlt : j / NBPOPMAP < i2 := by
          rw [NBPOPMAP_eq] at hdm hmod hj ⊢
          omega
        by_cases hqi : j / NBPOPMAP < i
        · rw [bitAt_decompose, g5 _ (Or.inl (by omega)),
            list_getD_set_ne pm i _ 0 (by omega)]
          have hjlt : j < NBPOPMAP * i + hi := by
            rw [NBPOPMAP_eq] at hdm hmod ⊢
            rw [NBPOPMAP_eq] at hqi
            omega
          have := hinv j hjlt
          rw [bitAt_decompose] at this
          exact this
        · by_cases hqe : j / NBPOPMAP = i
          · rw [bitAt_decompose, g5 _ (Or.inl (by omega)), hqe,
              list_getD_set pm i 0 (by rw [hlen]; exact hi8)]
            exact Nat.zero_testBit _
          · have hgt : i < j / NBPOPMAP := by omega
            rw [bitAt_decompose, g6 _ hgt hqlt]
            exact Nat.zero_testBit _
      have hcsEq : countSet pm2 (NBPOPMAP * i2) =
          countSet pm (NBPOPMAP * i2) :=
        countSet_congr pm pm2 _ (fun j h1 _ => hBitsGe j h1)
      by_cases hend : i2 = NPOPMAP
      · rw [if_pos hend]
        have hNfull : NBPOPMAP * i2 = VM_LEVEL_0_NPAGES := by
          rw [hend, NBPOPMAP_eq, NPOPMAP_eq, NPAGES_eq]
        have hrep : pm2 = List.replicate NPOPMAP 0 := by
          apply pm_all_false_eq_replicate pm2 g3 g4
          intro j hj
          exact hBitsLt j (by omega)
        have hcz : countSet pm (NBPOPMAP * i2) = 0 := by
          rw [hNfull]
          exact countSet_out pm _ (by omega)
        have hpc : pc2 = pc - countSet pm (NBPOPMAP * i + hi) := by
          have hhi' : hi < 64 := by rw [NBPOPMAP_eq] at hhi; exact hhi
          have hA : countSet pm (NBPOPMAP * i + hi) =
              NBPOPMAP * i2 - (NBPOPMAP * i + hi) := by
            rw [hcsPref, hcz]
            simp
          rw [hA, g8]
          rw [NBPOPMAP_eq]
          omega
        have hzn : zeroRunsFrom pm (NBPOPMAP * i + hi) = [] := by
          apply zeroRunsFrom_nil pm _ (by omega)
          rw [hfcPref, hNfull, findClear_out pm _ (by omega)]
          omega
        rw [hrep, hpc, hzn, List.append_nil]
      · rw [if_neg hend]
        have hi2lt : i2 < NPOPMAP := lt_of_le_of_ne g2 hend
        obtain ⟨hlo2eq, hlo2ne⟩ := g9 hi2lt
        obtain ⟨lo0, hlo0⟩ : ∃ lo0, lo2 = lo0 + 1 := by
          cases hv : lo2 with
          | zero => exact absurd hv hlo2ne
          | succ l => exact ⟨l, rfl⟩
        have hpm2i2 : pm2.getD i2 0 = pm.getD i2 0 := by
          rw [g5 _ (Or.inr (le_refl i2)),
            list_getD_set_ne pm i _ 0 (by omega)]
        have hlo2eq' : lo2 = ffsl (cNot64 (pm.getD i2 0)) := by
          rw [hlo2eq, list_getD_set_ne pm i i2 0 (by omega)]
        have hword : ffsl (cNot64 (pm2.getD i2 0)) = lo0 + 1 := by
          rw [hpm2i2, ← hlo2eq']
          exact hlo0
        obtain ⟨hc1, hc2, hc3⟩ := word_first_clear_pos0 (pm2.getD i2 0) lo0
          (list_getD_lt pm2 i2 g4) hword
        obtain ⟨pm3, heq3, hres⟩ := break_loop_from_run fuel pm2 pc2 i2 0 lo0
          freed g3 g4 hi2lt (by rw [NBPOPMAP_eq]; omega)
          (by rw [NBPOPMAP_eq]; exact hc1) (Nat.zero_le _)
          (by intro j hj; exact hBitsLt j (by omega))
          (fun b _ hb => hc3 b hb) hc2
          (by
            rw [NPAGES_eq, NBPOPMAP_eq] at hfuel ⊢
            rw [NBPOPMAP_eq] at hple
            omega)
          ih
        rw [hlo0, heq3]
        dsimp only []
        refine hres.trans ?_
        have hzrEq : zeroRunsFrom pm2 (NBPOPMAP * i2 + 0) =
            zeroRunsFrom pm (NBPOPMAP * i + hi) := by
          have e1 : zeroRunsFrom pm2 (NBPOPMAP * i2) =
              zeroRunsFrom pm (NBPOPMAP * i2) :=
            zeroRunsFrom_congr pm pm2 _ hi2le (fun j h1 _ => hBitsGe j h1)
          have e2 : zeroRunsFrom pm (NBPOPMAP * i + hi) =
              zeroRunsFrom pm (NBPOPMAP * i2) :=
            zeroRunsFrom_congr_findClear pm _ _ (by omega) hi2le hfcPref
          rw [Nat.add_zero, e1, e2]
        have hpcEq : pc2 - countSet pm2 (NBPOPMAP * i2 + 0) =
            pc - countSet pm (NBPOPMAP * i + hi) := by
          have hhi' : hi < 64 := by rw [NBPOPMAP_eq] at hhi; exact hhi
          rw [Nat.add_zero, hcsEq, hcsPref, g8]
          rw [NBPOPMAP_eq]
          omega
        rw [hzrEq, hpcEq]
    · rw [if_neg hz]
      obtain ⟨lo1, hlo1⟩ : ∃ lo1, ffsl (cNot64 (((1 <<< hi) - 1) |||
          pm.getD i 0)) = lo1 + 1 := by
        cases hv : ffsl (cNot64 (((1 <<< hi) - 1) ||| pm.getD i 0)) with
        | zero => exact absurd hv hz
        | succ l => exact ⟨l, rfl⟩
      obtain ⟨hc0, hc1, hc2, hc3⟩ := word_first_clear_pos (pm.getD i 0) hi
        lo1 (list_getD_lt pm i hw) (by rw [NBPOPMAP_eq] at hhi; exact hhi)
        hlo1
      obtain ⟨pm3, heq3, hres⟩ := break_loop_from_run fuel pm pc i hi lo1
        freed hlen hw hi8 hhi (by rw [NBPOPMAP_eq]; exact hc1) hc0 hinv
        hc3 hc2 hfuel ih
      rw [hlo1, heq3]
      dsimp only []
      exact hres

theorem popmap_is_clear_iff (pm : List Nat) (j : Nat) :
    popmap_is_clear pm j = true ↔ bitAt pm j = false := by
  rw [popmap_is_clear, bitAt_decompose]
  constructor
  · intro h
    have h' : pm.getD (j / NBPOPMAP) 0 &&& 1 <<< (j % NBPOPMAP) = 0 := by
      simpa using h
    have hbit := congrArg (fun n => n.testBit (j % NBPOPMAP)) h'
    simpa [Nat.shiftLeft_eq, Nat.testBit_and, Nat.testBit_two_pow_self,
      Nat.zero_testBit] using hbit
  · intro h
    have h' : pm.getD (j / NBPOPMAP) 0 &&& 1 <<< (j % NBPOPMAP) = 0 := by
      apply Nat.eq_of_testBit_eq
      intro b
      rw [Nat.zero_testBit, Nat.testBit_and, Nat.shiftLeft_eq, one_mul,
        Nat.testBit_two_pow]
      by_cases hb : j % NBPOPMAP = b
      · rw [← hb, h]
        rfl
      · have hd : decide (j % NBPOPMAP = b) = false := by simp [hb]
        rw [hd]
        cases (pm.getD (j / NBPOPMAP) 0).testBit b <;> rfl
    simpa using h'

theorem bitAt_popmap_set_self (pm : List Nat) (j : Nat)
    (hlen : pm.length = NPOPMAP) (hj : j < VM_LEVEL_0_NPAGES) :
    bitAt (popmap_set pm j) j = true := by
  have hq : j / NBPOPMAP < pm.length := by
    rw [hlen, NBPOPMAP_eq, NPOPMAP_eq]
    rw [NPAGES_eq] at hj
    omega
  rw [bitAt_decompose, popmap_set, list_getD_set _ _ _ hq, Nat.testBit_or,
    Nat.shiftLeft_eq, one_mul, Nat.testBit_two_pow_self]
  cases (pm.getD (j / NBPOPMAP) 0).testBit (j % NBPOPMAP) <;> rfl

theorem bitAt_popmap_set_ne (pm : List Nat) (j x : Nat)
    (hlen : pm.length = NPOPMAP) (hne : x ≠ j) :
    bitAt (popmap_set pm j) x = bitAt pm x := by
  by_cases hq : x / NBPOPMAP = j / NBPOPMAP
  · have hb : x % NBPOPMAP ≠ j % NBPOPMAP := by
      intro hmod
      apply hne
      have h1 := Nat.div_add_mod x NBPOPMAP
      have h2 := Nat.div_add_mod j NBPOPMAP
      rw [NBPOPMAP_eq] at h1 h2
      rw [NBPOPMAP_eq] at hq hmod
      omega
    by_cases hql : j / NBPOPMAP < pm.length
    · rw [bitAt_decompose, bitAt_decompose, popmap_set, hq,
        list_getD_set _ _ _ hql, Nat.testBit_or, Nat.shiftLeft_eq, one_mul,
        Nat.testBit_two_pow]
      have hd : decide (j % NBPOPMAP = x % NBPOPMAP) = false := by
        simp
        omega
      rw [hd]
      cases (pm.getD (j / NBPOPMAP) 0).testBit (x % NBPOPMAP) <;> rfl
    · rw [bitAt_decompose, bitAt_decompose, popmap_set, hq,
        List.set_eq_of_length_le (le_of_not_lt hql)]
  · rw [bitAt_decompose, bitAt_decompose, popmap_set,
      list_getD_set_ne _ _ _ _ hq]

theorem countSet_popmap_set_aux : ∀ (d : Nat) (pm : List Nat) (j p : Nat),
    VM_LEVEL_0_NPAGES ≤ p + d → pm.length = NPOPMAP →
    j < VM_LEVEL_0_NPAGES → bitAt pm j = false →
    countSet (popmap_set pm j) p =
      countSet pm p + (if p ≤ j then 1 else 0) := by
  intro d
  induction d with
  | zero =>
    intro pm j p hd hlen hj hb
    rw [countSet_out _ p (by omega), countSet_out _ p (by omega),
      if_neg (by omega)]
  | succ d ih =>
    intro pm j p hd hlen hj hb
    by_cases hp : p < VM_LEVEL_0_NPAGES
    · rw [countSet_step _ p hp, countSet_step _ p hp,
        ih pm j (p + 1) (by omega) hlen hj hb]
      by_cases hpj : p = j
      · subst hpj
        rw [bitAt_popmap_set_self pm p hlen hp, hb,
          if_pos (rfl : true = true), if_neg (by decide : ¬ (false = true)),
          if_pos (le_refl p), if_neg (by omega : ¬ (p + 1 ≤ p))]
        omega
      · rw [bitAt_popmap_set_ne pm j p hlen hpj]
        by_cases hle : p + 1 ≤ j
        · rw [if_pos hle, if_pos (by omega : p ≤ j)]
          omega
        · rw [if_neg hle, if_neg (by omega : ¬ (p ≤ j))]
          omega
    · rw [countSet_out _ p hp, countSet_out _ p hp, if_neg (by omega)]

theorem countSet_popmap_set (pm : List Nat) (j : Nat)
    (hlen : pm.length = NPOPMAP) (hj : j < VM_LEVEL_0_NPAGES)
    (hb : bitAt pm j = false) :
    countSet (popmap_set pm j) 0 = countSet pm 0 + 1 := by
  rw [countSet_popmap_set_aux VM_LEVEL_0_NPAGES pm j 0 (by omega) hlen hj hb,
    if_pos (Nat.zero_le j)]

theorem zeroRuns_eq_from (pm : List Nat) : zeroRuns pm = zeroRunsFrom pm 0 :=
  rfl

theorem break_finish_char (s : GState) (r : Nat) (rv : RState)
    (hlen : rv.popmap.length = NPOPMAP) (hw : ∀ w ∈ rv.popmap, w < UL64)
    (hpc : rv.popcnt = countSet rv.popmap 0) :
    vm_reserv_break_finish s r rv =
      some { setRv s r { rv with popmap := List.replicate NPOPMAP 0,
                                 popcnt := 0 } with
             events := s.events ++ (zeroRunsFrom rv.popmap 0).map
               (fun z => PhysEvent.freeContig r z.1 z.2),
             brokenCnt := s.brokenCnt + 1 } := by
  have hl := break_loop_spec (VM_LEVEL_0_NPAGES + 1) rv.popmap rv.popcnt 0 0
    [] hlen hw (by rw [NPOPMAP_eq]; omega) (by rw [NBPOPMAP_eq]; omega)
    (by intro j hj; rw [NBPOPMAP_eq] at hj; omega) (by omega)
  rw [Nat.mul_zero, Nat.add_zero, List.nil_append] at hl
  unfold vm_reserv_break_finish
  rw [hl]
  dsimp only []
  rw [hpc, Nat.sub_self]
  rw [if_neg (not_not_intro rfl)]

theorem vm_reserv_break_char (s : GState) (r o : Nat) (mi : Option Nat)
    (hflags : (s.rvs r).flags &&& VM_RESERV_F_PARTPOP = 0)
    (hobj : (s.rvs r).object = some o)
    (hwfpm : PmWF (s.rvs r).popmap)
    (hpc : (s.rvs r).popcnt = countSet (s.rvs r).popmap 0)
    (hmi : ∀ j, mi = some j → popmap_is_clear (s.rvs r).popmap j = true ∧
      j < VM_LEVEL_0_NPAGES) :
    ∃ s', vm_reserv_break s r mi = some s' ∧
      (s'.rvs r).object = none ∧
      (s'.rvs r).seq = (s.rvs r).seq + 2 ∧
      (s'.rvs r).popmap = List.replicate NPOPMAP 0 ∧
      (s'.rvs r).popcnt = 0 ∧
      (s'.rvs r).psind = (s.rvs r).psind ∧
      (s'.rvs r).flags = (s.rvs r).flags ∧
      (s'.rvs r).pindex = (s.rvs r).pindex ∧
      (s'.rvs r).actcnt = (s.rvs r).actcnt ∧
      (s'.rvs r).pages = (s.rvs r).pages ∧
      (∀ r', r' ≠ r → s'.rvs r' = s.rvs r') ∧
      s'.objq o = (s.objq o).erase r ∧
      (∀ o', o' ≠ o → s'.objq o' = s.objq o') ∧
      s'.lruActive = s.lruActive ∧ s'.lruInactive = s.lruInactive ∧
      s'.events = s.events ++
        (zeroRuns (breakAdjusted (s.rvs r).popmap mi)).map
          (fun z => PhysEvent.freeContig r z.1 z.2) ∧
      s'.brokenCnt = s.brokenCnt + 1 ∧
      s'.freedCnt = s.freedCnt ∧ s'.reclaimedCnt = s.reclaimedCnt := by
  obtain ⟨hlen, hwords⟩ := hwfpm
  unfold vm_reserv_break
  dsimp only []
  rw [if_neg (not_not_intro hflags), hobj]
  dsimp only []
  cases mi with
  | none =>
    dsimp only []
    rw [break_finish_char _ r _ (by simpa [vm_reserv_set_object] using hlen)
      (by simpa [vm_reserv_set_object] using hwords)
      (by simpa [vm_reserv_set_object] using hpc)]
    refine ⟨_, rfl, ?_, ?_, ?_, ?_, ?_, ?_, ?_, ?_, ?_, ?_, ?_, ?_, ?_, ?_,
      ?_, ?_, ?_, ?_⟩ <;>
      first
        | (intro x hx
           simp [setRv, setObjq, vm_reserv_set_object, hx])
        | (simp [setRv, setObjq, vm_reserv_set_object, breakAdjusted,
            zeroRuns_eq_from]
           try omega)
  | some j =>
    obtain ⟨hclear, hjlt⟩ := hmi j rfl
    dsimp only []
    rw [if_neg (not_not_intro (by
      simpa [vm_reserv_set_object] using hclear))]
    have hlen2 : (popmap_set (s.rvs r).popmap j).length = NPOPMAP := by
      rw [popmap_set, List.length_set]
      exact hlen
    have hw2 : ∀ w ∈ popmap_set (s.rvs r).popmap j, w < UL64 := by
      apply words_lt_set _ _ _ hwords
      rw [UL64_eq]
      apply Nat.or_lt_two_pow
      · rw [← UL64_eq]
        exact list_getD_lt _ _ hwords
      · rw [Nat.shiftLeft_eq, one_mul]
        exact Nat.pow_lt_pow_right (by norm_num)
          (Nat.mod_lt _ (by decide))
    have hpc2 : (s.rvs r).popcnt + 1 =
        countSet (popmap_set (s.rvs r).popmap j) 0 := by
      rw [countSet_popmap_set _ j hlen hjlt
        ((popmap_is_clear_iff _ j).mp hclear), hpc]
    rw [break_finish_char _ r _ (by simpa [vm_reserv_set_object] using hlen2)
      (by simpa [vm_reserv_set_object] using hw2)
      (by simpa [vm_reserv_set_object] using hpc2)]
    refine ⟨_, rfl, ?_, ?_, ?_, ?_, ?_, ?_, ?_, ?_, ?_, ?_, ?_, ?_, ?_, ?_,
      ?_, ?_, ?_, ?_⟩ <;>
      first
        | (intro x hx
           simp [setRv, setObjq, vm_reserv_set_object, hx])
        | (simp [setRv, setObjq, vm_reserv_set_object, breakAdjusted,
            zeroRuns_eq_from]
           try omega)

theorem update_lru_isSome (s : GState) (r : Nat) (adv : Int)
    (hobj : ¬ ((s.rvs r).object = none))
    (hfl : (s.rvs r).flags = VM_RESERV_F_ACTIVE ∨
      (s.rvs r).flags = VM_RESERV_F_INACTIVE ∨
      ((s.rvs r).flags = 0 ∧ ¬ ((s.rvs r).popcnt = VM_LEVEL_0_NPAGES) ∧
        ¬ ((s.rvs r).popcnt = 0))) :
    (vm_reserv_update_lru s r adv).isSome = true := by
  unfold vm_reserv_update_lru
  dsimp only []
  rcases hfl with hf | hf | ⟨hf, hne, hn0⟩
  · by_cases hN : (s.rvs r).popcnt = VM_LEVEL_0_NPAGES
    · rw [if_pos hN, if_neg (by rw [hf]; decide), if_neg (by rw [hf]; decide),
        lru_dequeue_eq_active s r hf]
      rfl
    · rw [if_neg hN]
      by_cases h0 : (s.rvs r).popcnt = 0
      · rw [if_pos h0]
        cases ho : (s.rvs r).object with
        | none => exact absurd ho hobj
        | some o =>
          dsimp only []
          rw [lru_dequeue_eq_active _ r
            (by simp [setRv, setObjq, vm_reserv_set_object, hf])]
          rfl
      · rw [if_neg h0, if_neg (by rw [hf]; decide)]
        rfl
  · by_cases hN : (s.rvs r).popcnt = VM_LEVEL_0_NPAGES
    · rw [if_pos hN, if_neg (by rw [hf]; decide), if_neg (by rw [hf]; decide),
        lru_dequeue_eq_inactive s r hf]
      rfl
    · rw [if_neg hN]
      by_cases h0 : (s.rvs r).popcnt = 0
      · rw [if_pos h0]
        cases ho : (s.rvs r).object with
        | none => exact absurd ho hobj
        | some o =>
          dsimp only []
          rw [lru_dequeue_eq_inactive _ r
            (by simp [setRv, setObjq, vm_reserv_set_object, hf])]
          rfl
      · rw [if_neg h0, if_pos (by rw [hf]; decide)]
        rw [if_pos (by rw [hf]; decide)]
        rw [lru_dequeue_eq_inactive _ r (by simp [setRv, hf])]
        rfl
  · rw [if_neg hne, if_neg hn0, if_pos (by rw [hf]; decide)]
    rw [if_neg (not_not_intro (by rw [hf]; decide))]
    rfl

theorem populate_isSome (s : GState) (r i : Nat)
    (hobj : ¬ ((s.rvs r).object = none))
    (hwf : RvWF (s.rvs r))
    (hclear : popmap_is_clear (s.rvs r).popmap i = true)
    (hcnt : (s.rvs r).popcnt < VM_LEVEL_0_NPAGES) :
    (vm_reserv_populate s r i).isSome = true := by
  obtain ⟨hwf1, hwf2, hwf3⟩ := hwf
  have hps : (s.rvs r).psind = 0 := by
    rw [hwf3, if_neg (by omega)]
  unfold vm_reserv_populate
  dsimp only []
  rw [if_neg hobj, if_neg (not_not_intro hclear),
    if_neg (not_not_intro hcnt), if_neg (not_not_intro hps)]
  by_cases hN1 : (s.rvs r).popcnt + 1 = VM_LEVEL_0_NPAGES
  · rw [if_pos hN1]
    apply update_lru_isSome
    · simp only [setRv_rvs_self]
      exact hobj
    · have hpos : 0 < (s.rvs r).popcnt := by
        rw [NPAGES_eq] at hN1
        omega
      rcases hwf2 hpos hcnt with hflag | hflag
      · left
        simp only [setRv_rvs_self]
        exact hflag
      · right
        left
        simp only [setRv_rvs_self]
        exact hflag
  · rw [if_neg hN1]
    apply update_lru_isSome
    · simp only [setRv_rvs_self]
      exact hobj
    · by_cases h0 : (s.rvs r).popcnt = 0
      · right
        right
        simp only [setRv_rvs_self]
        exact ⟨hwf1 (Or.inl h0), hN1, by omega⟩
      · rcases hwf2 (by omega) hcnt with hflag | hflag
        · left
          simp only [setRv_rvs_self]
          exact hflag
        · right
          left
          simp only [setRv_rvs_self]
          exact hflag

theorem depopulate_isSome (s : GState) (r i : Nat)
    (hobj : ¬ ((s.rvs r).object = none))
    (hwf : RvWF (s.rvs r))
    (hle : (s.rvs r).popcnt ≤ VM_LEVEL_0_NPAGES)
    (hset : popmap_is_set (s.rvs r).popmap i = true)
    (hcnt : 0 < (s.rvs r).popcnt) :
    (vm_reserv_depopulate s r i).isSome = true := by
  obtain ⟨hwf1, hwf2, hwf3⟩ := hwf
  unfold vm_reserv_depopulate
  dsimp only []
  rw [if_neg hobj, if_neg (not_not_intro hset), if_neg (by omega)]
  by_cases hN : (s.rvs r).popcnt = VM_LEVEL_0_NPAGES
  · have hps : (s.rvs r).psind = 1 := by
      rw [hwf3, if_pos hN]
    have hflag : (s.rvs r).flags = 0 := hwf1 (Or.inr hN)
    rw [if_pos hN, if_neg (not_not_intro hps),
      if_neg (not_not_intro (by rw [hflag]; decide))]
    apply update_lru_isSome
    · simp only [setRv_rvs_self]
      exact hobj
    · right
      right
      simp only [setRv_rvs_self]
      refine ⟨hflag, ?_, ?_⟩
      · rw [NPAGES_eq] at hN ⊢
        omega
      · rw [NPAGES_eq] at hN
        omega
  · rw [if_neg hN]
    apply update_lru_isSome
    · simp only [setRv_rvs_self]
      exact hobj
    · rcases hwf2 hcnt (by omega) with hflag | hflag
      · left
        simp only [setRv_rvs_self]
        exact hflag
      · right
        left
        simp only [setRv_rvs_self]
        exact hflag

/-- C2: `vm_reserv_break(R, m)` on a reservation that is bound to an
object, off both LRU queues, with a well-formed popmap whose population
count equals its number of set bits, and a retained page `m` that is
either NULL or a page of `R` whose popmap bit is clear: it unlinks `R`
from the object's list, clears `object` inside the two `seq` write
brackets (`seq` rises by 2), calls the physical allocator's
`free_contig` exactly once per maximal run of clear bits of the popmap
fixed up with `m`'s bit (if any) set first (in order, appended to the
event log), finishes with every popmap bit clear and `popcnt = 0`,
increments the broken counter by 1, and hands no run containing `m` to
the allocator. -/
theorem C2_break_zero_runs (s : GState) (r o : Nat) (mi : Option Nat)
    (hflags : (s.rvs r).flags &&& VM_RESERV_F_PARTPOP = 0)
    (hobj : (s.rvs r).object = some o)
    (hwfpm : PmWF (s.rvs r).popmap)
    (hpc : (s.rvs r).popcnt = countSet (s.rvs r).popmap 0)
    (hmi : ∀ j, mi = some j → popmap_is_clear (s.rvs r).popmap j = true ∧
      j < VM_LEVEL_0_NPAGES) :
    ∃ s', vm_reserv_break s r mi = some s' ∧
      (s'.rvs r).object = none ∧
      (s'.rvs r).seq = (s.rvs r).seq + 2 ∧
      (s'.rvs r).popmap = List.replicate NPOPMAP 0 ∧
      (s'.rvs r).popcnt = 0 ∧
      s'.objq o = (s.objq o).erase r ∧
      (∀ o', o' ≠ o → s'.objq o' = s.objq o') ∧
      (∀ r', r' ≠ r → s'.rvs r' = s.rvs r') ∧
      s'.lruActive = s.lruActive ∧
      s'.lruInactive = s.lruInactive ∧
      s'.events = s.events ++
        (zeroRuns (breakAdjusted (s.rvs r).popmap mi)).map
          (fun z => PhysEvent.freeContig r z.1 z.2) ∧
      s'.brokenCnt = s.brokenCnt + 1 ∧
      s'.freedCnt = s.freedCnt ∧
      (∀ j, mi = some j →
        ∀ z ∈ zeroRuns (breakAdjusted (s.rvs r).popmap mi),
          ¬ (z.1 ≤ j ∧ j < z.1 + z.2)) := by
  obtain ⟨s', heq, c1, c2, c3, c4, c5, c6, c7, c8, c9, c10, c11, c12, c13,
      c14, c15, c16, c17⟩ :=
    vm_reserv_break_char s r o mi hflags hobj hwfpm hpc hmi
  refine ⟨s', heq, c1, c2, c3, c4, c11, c12, c10, c13, c14, c15, c16, c17.1,
    ?_⟩
  intro j hj z hz hm
  obtain ⟨hjc, hjlt⟩ := hmi j hj
  subst hj
  have hclear := zeroRunsFrom_clear (breakAdjusted (s.rvs r).popmap (some j))
    0 (by omega) z (by rw [← zeroRuns_eq_from]; exact hz) j hm.1 hm.2
  have hset : bitAt (breakAdjusted (s.rvs r).popmap (some j)) j = true := by
    show bitAt (popmap_set (s.rvs r).popmap j) j = true
    exact bitAt_popmap_set_self _ j hwfpm.1 hjlt
  rw [hset] at hclear
  exact Bool.noConfusion hclear

set_option maxRecDepth 1000000 in
/-- Witness for C2: breaking `gB`'s reservation 0 succeeds both while
retaining its page 0 and with no retained page. -/
theorem C2_witness : (vm_reserv_break gB 0 (some 0)).isSome = true ∧
    (vm_reserv_break gB 0 none).isSome = true := by
  constructor
  · obtain ⟨s', hs', -⟩ := C2_break_zero_runs gB 0 7 (some 0) rfl rfl
      (by constructor
          · rfl
          · decide)
      (by decide)
      (by intro j hj; injection hj with hj; subst hj; exact ⟨rfl, by decide⟩)
    rw [hs']
    rfl
  · obtain ⟨s', hs', -⟩ := C2_break_zero_runs gB 0 7 none rfl rfl
      (by constructor
          · rfl
          · decide)
      (by decide) (by intro j hj; exact Option.noConfusion hj)
    rw [hs']
    rfl

/-- C9: under the preconditions the specification states for them —
`object` bound and, for `populate`, bit `i` clear with `popcnt < N`;
for `depopulate`, bit `i` set with `popcnt > 0`; for `break`, the
record off both LRU queues with a well-formed popmap counted by
`popcnt` — together with the structural well-formedness the module's
assertions presuppose (`RvWF`: flags agree with `popcnt`, `psind` set
exactly at full), `vm_reserv_populate`, `vm_reserv_depopulate` and
`vm_reserv_break` run to completion: no internal `KASSERT` (modelled
as `none`) fires. -/
theorem C9_no_internal_failure (s : GState) (r : Nat) :
    (∀ i, ¬ ((s.rvs r).object = none) → RvWF (s.rvs r) →
      popmap_is_clear (s.rvs r).popmap i = true →
      (s.rvs r).popcnt < VM_LEVEL_0_NPAGES →
      (vm_reserv_populate s r i).isSome = true) ∧
    (∀ i, ¬ ((s.rvs r).object = none) → RvWF (s.rvs r) →
      (s.rvs r).popcnt ≤ VM_LEVEL_0_NPAGES →
      popmap_is_set (s.rvs r).popmap i = true →
      0 < (s.rvs r).popcnt →
      (vm_reserv_depopulate s r i).isSome = true) ∧
    (∀ o mi, (s.rvs r).object = some o →
      (s.rvs r).flags &&& VM_RESERV_F_PARTPOP = 0 →
      PmWF (s.rvs r).popmap →
      (s.rvs r).popcnt = countSet (s.rvs r).popmap 0 →
      (∀ j, mi = some j → popmap_is_clear (s.rvs r).popmap j = true ∧
        j < VM_LEVEL_0_NPAGES) →
      (vm_reserv_break s r mi).isSome = true) := by
  refine ⟨?_, ?_, ?_⟩
  · intro i hobj hwf hclear hcnt
    exact populate_isSome s r i hobj hwf hclear hcnt
  · intro i hobj hwf hle hset hcnt
    exact depopulate_isSome s r i hobj hwf hle hset hcnt
  · intro o mi hobj hflags hwfpm hpc hmi
    obtain ⟨s', heq, -⟩ :=
      vm_reserv_break_char s r o mi hflags hobj hwfpm hpc hmi
    rw [heq]
    rfl

set_option maxRecDepth 1000000 in
/-- Witness for C9 at the concrete states `gA` (populate slot 1,
depopulate slot 0 of the active partial reservation) and `gB` (break
the dequeued two-page reservation without a retained page). -/
theorem C9_witness :
    (vm_reserv_populate gA 0 1).isSome = true ∧
    (vm_reserv_depopulate gA 0 0).isSome = true ∧
    (vm_reserv_break gB 0 none).isSome = true := by
  refine ⟨?_, ?_, ?_⟩
  · exact (C9_no_internal_failure gA 0).1 1 (by decide)
      (by unfold RvWF; decide) rfl (by decide)
  · exact (C9_no_internal_failure gA 0).2.1 0 (by decide)
      (by unfold RvWF; decide) (by decide) (by decide) (by decide)
  · exact (C9_no_internal_failure gB 0).2.2 7 none rfl rfl
      (by constructor
          · rfl
          · decide)
      (by decide) (by intro j hj; exact Option.noConfusion hj)
